import Mathlib

/-!
# Verification of the mkv-manager subtitle decision/normalization core

A shallow embedding, in Lean 4, of the pure decision logic of the
`mkv-manager` repository: subtitle deduplication
(`src/core/subtitles/subtitle_processor.py`), track collection and
filtering (`src/core/processing/mkv_processor.py`), series-info
extraction from filenames (`src/core/analysis/filename_processor.py`),
subtitle line wrapping (`src/core/utils/text_utils.py`), and subtitle
format detection / conversion (`src/core/subtitles/subtitle_converter.py`,
`src/core/mkv_cleaner.py`).

Python strings are modelled as `List Char`; Python dicts (which preserve
insertion order) are modelled as insertion-ordered association lists.
Python's `re` usage in these modules is limited to a handful of fixed
patterns; each is embedded as an explicit character-level scan with the
leftmost-match/greedy/lazy semantics the pattern has in Python.
-/

namespace Mkv

/-- Python strings are modelled as lists of characters. -/
abbrev Str := List Char

/- ## Pythonic string primitives -/

/-- ASCII whitespace, as recognised by Python's `str.strip` / `\s`
(for the ASCII range that these inputs use). -/
def pyIsSpace (c : Char) : Bool :=
  c = ' ' ∨ c = '\t' ∨ c = '\n' ∨ c = '\x0d' ∨ c = '\x0b' ∨ c = '\x0c'

/-- `str.lstrip()` -/
def pyLStrip (s : Str) : Str := s.dropWhile pyIsSpace

/-- `str.rstrip()` -/
def pyRStrip (s : Str) : Str := (s.reverse.dropWhile pyIsSpace).reverse

/-- `str.strip()` -/
def pyStrip (s : Str) : Str := pyRStrip (pyLStrip s)

/-- ASCII decimal digit. -/
def pyIsDigit (c : Char) : Bool := '0' ≤ c ∧ c ≤ '9'

/-- Decimal value of a digit list (the digits of a successful `int(...)`). -/
def digitsToNat (ds : Str) : Nat :=
  ds.foldl (fun acc c => 10 * acc + (c.toNat - '0'.toNat)) 0

/-- Python `int(s)` on a string: optional surrounding whitespace, optional
sign, one or more digits; anything else raises (modelled as `none`). -/
def pyInt (s : Str) : Option Int :=
  let t := pyStrip s
  match t with
  | '+' :: ds => if ds ≠ [] ∧ ds.all pyIsDigit then some (digitsToNat ds) else none
  | '-' :: ds => if ds ≠ [] ∧ ds.all pyIsDigit then some (-(digitsToNat ds : Int)) else none
  | ds => if ds ≠ [] ∧ ds.all pyIsDigit then some (digitsToNat ds) else none

/-- Does `needle` occur at the head of `s` (`s.startswith(needle)`)? -/
def startsWithStr (needle s : Str) : Bool := needle.isPrefixOf s

/-- First index at which `needle` occurs in `s` (`s.find(needle)` when ≥ 0). -/
def findSub : Str → Str → Option Nat
  | _, [] => none
  | needle, s@(_ :: rest) =>
      if startsWithStr needle s then some 0
      else (findSub needle rest).map (· + 1)

/-- `needle in s` (substring containment; Python `in` on strings).
An empty needle is always contained. -/
def containsSub (needle s : Str) : Bool :=
  if needle = [] then true else (findSub needle s).isSome

/-- Scan for `needle` from position `i` downwards (worker for `rfindSub`). -/
def rfindFrom (needle s : Str) : Nat → Option Nat
  | 0 => if startsWithStr needle s then some 0 else none
  | i + 1 =>
      if startsWithStr needle (s.drop (i + 1)) then some (i + 1)
      else rfindFrom needle s i

/-- `s.rfind(needle)`: highest index of an occurrence, `-1` if absent.
Returned as `Option Nat` (`none` for Python's `-1`). -/
def rfindSub (needle s : Str) : Option Nat := rfindFrom needle s s.length

/-- Fuel-based worker for `replaceAll`; every step consumes at least one
character, so fuel equal to the string length is always sufficient, and
the structural recursion reduces inside the kernel. -/
def replaceAllAux (old new : Str) : Nat → Str → Str
  | 0, s => s
  | fuel + 1, s =>
      match s with
      | [] => []
      | c :: rest =>
          if startsWithStr old (c :: rest) ∧ old ≠ [] then
            new ++ replaceAllAux old new fuel ((c :: rest).drop old.length)
          else c :: replaceAllAux old new fuel rest

/-- `s.replace(old, new)`: replace all non-overlapping occurrences, left to
right.  `old` is non-empty at every call site. -/
def replaceAll (old new : Str) (s : Str) : Str :=
  replaceAllAux old new s.length s

/-- Split on a separator character (`s.split(sep)` with a 1-char separator:
adjacent separators yield empty fields). -/
def splitChar (sep : Char) (s : Str) : List Str :=
  match s with
  | [] => [[]]
  | c :: rest =>
      let r := splitChar sep rest
      if c = sep then [] :: r
      else match r with
        | [] => [[c]]
        | f :: fs => (c :: f) :: fs

/-- A stable insertion sort by a boolean `le`; extensionally equal to
Python's (stable) `list.sort(key=...)` for a total preorder. -/
def insertLe (le : α → α → Bool) (x : α) : List α → List α
  | [] => [x]
  | y :: ys => if le y x then y :: insertLe le x ys else x :: y :: ys

/-- Stable sort (models `list.sort`). -/
def sortLe (le : α → α → Bool) (l : List α) : List α :=
  l.foldr (insertLe le) []

/-- Lexicographic comparison of strings by character code
(Python `str` ordering restricted to these inputs). -/
def strLe : Str → Str → Bool
  | [], _ => true
  | _ :: _, [] => false
  | a :: as, b :: bs =>
      if a.toNat < b.toNat then true
      else if b.toNat < a.toNat then false
      else strLe as bs

/- ## §4.3 SubtitleDeduplicator: `deduplicate_subtitles`
(src/core/subtitles/subtitle_processor.py lines 19-109) -/

/-- One collected subtitle track, as the dicts built in
`filter_and_remux` (src/core/processing/mkv_processor.py lines 217-224). -/
structure Track where
  id : Nat
  lang : Str
  forced : Bool
  hearingImpaired : Bool
  trackName : Str
deriving DecidableEq, Repr

/-- Scan for `re.search(r'\[([^\]]+)\]', s)`: at each position in turn, try
to match a literal `[`, a maximal non-empty run of non-`]` characters, and
a closing `]`; the run is the captured group. -/
def searchBracket : Str → Option Str
  | [] => none
  | c :: rest =>
      if c = '[' then
        let run := rest.takeWhile (fun d => d ≠ ']')
        if run ≠ [] ∧ (rest.drop run.length).head? = some ']' then some run
        else searchBracket rest
      else searchBracket rest

/-- `extract_source` (subtitle_processor.py lines 26-31): `None` for an
empty name, else the first bracketed segment of the track name. -/
def extract_source (trackName : Str) : Option Str :=
  if trackName = [] then none else searchBracket trackName

/-- `lang_groups[lang].append(track)` on an insertion-ordered dict. -/
def addToGroup (gs : List (Str × List Track)) (lang : Str) (t : Track) :
    List (Str × List Track) :=
  match gs with
  | [] => [(lang, [t])]
  | (k, v) :: rest =>
      if k = lang then (k, v ++ [t]) :: rest
      else (k, v) :: addToGroup rest lang t

/-- The `lang_groups` dict (subtitle_processor.py lines 33-41). -/
def buildLangGroups (tracks : List Track) : List (Str × List Track) :=
  tracks.foldl (fun gs t => addToGroup gs t.lang t) []

/-- The `{"normal": [...], "forced": [...]}` pair used for each source and
for the unsourced tracks. -/
structure Bucket where
  normal : List Track
  forced : List Track
deriving DecidableEq, Repr

/-- Append a track into a `{"normal": ..., "forced": ...}` pair according to
its forced flag (the shared shape of lines 65-68 and 71-74). -/
def addUnsourced (b : Bucket) (t : Track) : Bucket :=
  if t.forced then ⟨b.normal, b.forced ++ [t]⟩ else ⟨b.normal ++ [t], b.forced⟩

/-- Append a sourced track into the `sources` dict (lines 61-68): create the
empty bucket for a fresh source, then append into the normal/forced list. -/
def addSourced (ss : List (Str × Bucket)) (src : Str) (t : Track) :
    List (Str × Bucket) :=
  match ss with
  | [] => [(src, addUnsourced ⟨[], []⟩ t)]
  | (k, b) :: rest =>
      if k = src then (k, addUnsourced b t) :: rest
      else (k, b) :: addSourced rest src t

/-- One iteration of the loop over `all_tracks` (lines 58-74): file the
track under its source tag, or into `unsourced_tracks`. -/
def buildStep (acc : List (Str × Bucket) × Bucket) (t : Track) :
    List (Str × Bucket) × Bucket :=
  match extract_source t.trackName with
  | some src => (addSourced acc.1 src t, acc.2)
  | none => (acc.1, addUnsourced acc.2 t)

/-- The loop over `all_tracks` building `sources` and `unsourced_tracks`
(lines 54-74). -/
def buildSources (allTracks : List Track) : List (Str × Bucket) × Bucket :=
  allTracks.foldl buildStep ([], ⟨[], []⟩)

/-- The bucket score (lines 80-90). -/
def scoreBucket (b : Bucket) : Int :=
  if b.normal.length > 0 ∧ b.forced.length > 0 then 100
  else if b.normal.length > 0 then 50
  else if b.forced.length > 0 then 25
  else 0

/-- One iteration of the `best_source` / `best_score` loop (lines 92-94). -/
def bestStep (acc : Option Str × Int) (sb : Str × Bucket) : Option Str × Int :=
  if scoreBucket sb.2 > acc.2 then (some sb.1, scoreBucket sb.2) else acc

/-- The `best_source` / `best_score` fold (lines 76-94): strict `>`, so the
first bucket with the maximal score wins. -/
def bestSourceFold (ss : List (Str × Bucket)) : Option Str × Int :=
  ss.foldl bestStep (none, -1)

/-- Python truthiness of `best_source` (a string or `None`). -/
def optStrTruthy : Option Str → Bool
  | none => false
  | some s => s ≠ []

/-- `best_source in sources`. -/
def keyMem (ss : List (Str × Bucket)) : Option Str → Bool
  | none => false
  | some k => ss.any (fun sb => sb.1 = k)

/-- `sources.get(k, {"normal": [], "forced": []})`-style lookup. -/
def getBucketD (ss : List (Str × Bucket)) : Option Str → Bucket
  | none => ⟨[], []⟩
  | some k => ((ss.find? (fun sb => sb.1 = k)).map (·.2)).getD ⟨[], []⟩

/-- `normal_tracks` of one language group (line 51). -/
def groupNormal (g : List Track) : List Track := g.filter (fun t => !t.forced)

/-- `forced_tracks` of one language group (line 52). -/
def groupForced (g : List Track) : List Track := g.filter (fun t => t.forced)

/-- `all_tracks = normal_tracks + forced_tracks` (line 56). -/
def groupAll (g : List Track) : List Track := groupNormal g ++ groupForced g

/-- The `sources` dict of one language group. -/
def groupSources (g : List Track) : List (Str × Bucket) :=
  (buildSources (groupAll g)).1

/-- The `unsourced_tracks` pair of one language group. -/
def groupUnsourced (g : List Track) : Bucket :=
  (buildSources (groupAll g)).2

/-- The `best_source` of one language group (lines 76-94). -/
def groupBest (g : List Track) : Option Str :=
  (bestSourceFold (groupSources g)).1

/-- The body of the per-language loop of `deduplicate_subtitles`
(subtitle_processor.py lines 47-107): what the loop appends to `result`
for one language group. -/
def dedupGroup (tracks : List Track) : List Track :=
  if tracks.length ≤ 1 then tracks
  else
    let sources := groupSources tracks
    let unsourced := groupUnsourced tracks
    let bestSource := groupBest tracks
    let part1 :=
      if optStrTruthy bestSource ∧ keyMem sources bestSource then
        (getBucketD sources bestSource).normal ++ (getBucketD sources bestSource).forced
      else []
    let part2 :=
      if unsourced.normal ≠ [] ∧
          ¬ (optStrTruthy bestSource ∧ (getBucketD sources bestSource).normal ≠ []) then
        unsourced.normal
      else []
    part1 ++ part2 ++ unsourced.forced

/-- `deduplicate_subtitles` (subtitle_processor.py lines 19-109). -/
def deduplicate_subtitles (subtitleTracks : List Track) : List Track :=
  if subtitleTracks = [] then subtitleTracks
  else ((buildLangGroups subtitleTracks).map (fun g => dedupGroup g.2)).flatten

/-- Invariant of the normal/forced pairs built by `buildSources` over a
track list `l`: every member comes from `l`, carries the bucket's source
tag, and sits in the list matching its forced flag. -/
def BucketTag (l : List Track) (tag : Option Str) (b : Bucket) : Prop :=
  (∀ t ∈ b.normal, t ∈ l ∧ extract_source t.trackName = tag ∧ t.forced = false) ∧
  (∀ t ∈ b.forced, t ∈ l ∧ extract_source t.trackName = tag ∧ t.forced = true)

/- ## §4.2 candidate collection and the systematic filter
(src/core/processing/mkv_processor.py lines 211-226 and
src/core/subtitles/subtitle_processor.py lines 130-155) -/

/-- The candidate-collection condition of `filter_and_remux`
(mkv_processor.py lines 211-216): language allowed for subtitles, or
forced and language allowed for audio, or forced and language equal to
the original subtitle language. -/
def collectSubtitle (allowedSubLangs allowedAudioLangs : List Str)
    (originalSubtitleLang : Str) (t : Track) : Bool :=
  let isForcedOriginal := t.forced && decide (t.lang = originalSubtitleLang)
  let isAllowedLang := allowedSubLangs.contains t.lang
  let isForcedForAudio := t.forced && allowedAudioLangs.contains t.lang
  isAllowedLang || isForcedOriginal || isForcedForAudio

/-- The keep/remove filter of `process_subtitles_systematically`
(subtitle_processor.py lines 130-155): a forced subtitle is kept iff its
language is in the allowed audio or allowed subtitle languages; a
non-forced one iff its language is in the allowed subtitle languages. -/
def subtitleAllowed (allowedAudioLangs allowedSubLangs : List Str)
    (t : Track) : Bool :=
  if t.forced then
    allowedAudioLangs.contains t.lang || allowedSubLangs.contains t.lang
  else
    allowedSubLangs.contains t.lang

/-- The subtitle decision pipeline of `filter_and_remux`
(mkv_processor.py lines 211-235): collect candidates, deduplicate, then
apply `process_subtitles_systematically`'s allowed-language filter.  The
result is the list of subtitle tracks that go on to receive keep
metadata. -/
def subtitlePipelineKept (allowedAudioLangs allowedSubLangs : List Str)
    (originalSubtitleLang : Str) (tracks : List Track) : List Track :=
  ((deduplicate_subtitles
      (tracks.filter
        (collectSubtitle allowedSubLangs allowedAudioLangs
          originalSubtitleLang))).filter
    (subtitleAllowed allowedAudioLangs allowedSubLangs))

/- ## §4.1 FilenameParser: `extract_series_info`
(src/core/analysis/filename_processor.py lines 16-70, with the constants
of src/core/config/constants.py) -/

/-- `ABBREVIATIONS` (constants.py lines 80-89), in dict insertion order. -/
def abbreviations : List (Str × Str) :=
  [("K.".data, "###K_DOT###".data),
   ("Dr.".data, "###DR_DOT###".data),
   ("Mr.".data, "###MR_DOT###".data),
   ("Mrs.".data, "###MRS_DOT###".data),
   ("Ms.".data, "###MS_DOT###".data),
   ("St.".data, "###ST_DOT###".data),
   ("Jr.".data, "###JR_DOT###".data),
   ("Sr.".data, "###SR_DOT###".data)]

/-- The abbreviation-protection loop (filename_processor.py lines 30-31). -/
def protectAbbrev (s : Str) : Str :=
  abbreviations.foldl (fun acc p => replaceAll p.1 p.2 acc) s

/-- The abbreviation-restore loop (filename_processor.py lines 58-59 for
the series title; the episode title applies the same replacements). -/
def restoreAbbrev (s : Str) : Str :=
  abbreviations.foldl (fun acc p => replaceAll p.2 p.1 acc) s

/-- `os.path.splitext(filename)[0]` for a bare filename: drop the suffix
from the last dot on, unless every character before that dot is itself a
dot (leading dots do not start an extension). -/
def splitextBase (s : Str) : Str :=
  match rfindSub ['.'] s with
  | none => s
  | some i => if (s.take i).any (fun c => c ≠ '.') then s.take i else s

/-- Maximal run of ASCII digits at the head of the string. -/
def digitRun (s : Str) : Str := s.takeWhile pyIsDigit

/-- Match `SEASON_EPISODE_PATTERN = r'[Ss](\d+)[Ee](\d+)'` at the head of
`s`, returning the two digit groups and the match length.  `(\d+)` is
greedy, and since no digit can satisfy the following `[Ee]`, the regex
matches exactly the maximal digit runs. -/
def seMatchAt (s : Str) : Option (Str × Str × Nat) :=
  match s with
  | [] => none
  | c :: rest =>
      if c = 'S' ∨ c = 's' then
        let d1 := digitRun rest
        if d1 ≠ [] then
          match rest.drop d1.length with
          | [] => none
          | e :: rest2 =>
              if e = 'E' ∨ e = 'e' then
                let d2 := digitRun rest2
                if d2 ≠ [] then some (d1, d2, 1 + d1.length + 1 + d2.length)
                else none
              else none
        else none
      else none

/-- `re.search` for the season/episode pattern: leftmost match position,
digit groups, and match length. -/
def seSearchAux : Str → Nat → Option (Nat × Str × Str × Nat)
  | [], _ => none
  | s@(_ :: rest), i =>
      match seMatchAt s with
      | some (d1, d2, len) => some (i, d1, d2, len)
      | none => seSearchAux rest (i + 1)

/-- `re.search(SEASON_EPISODE_PATTERN, s)` (filename_processor.py line 33). -/
def seSearch (s : Str) : Option (Nat × Str × Str × Nat) := seSearchAux s 0

/-- Decimal digits of a natural number (helper for Python's `f"{n:02d}"`),
with an explicit fuel argument so that the definition reduces in the
kernel; `natDigits` supplies enough fuel. -/
def natDigitsAux : Nat → Nat → Str
  | 0, _ => []
  | fuel + 1, n =>
      if n < 10 then [Char.ofNat (48 + n)]
      else natDigitsAux fuel (n / 10) ++ [Char.ofNat (48 + n % 10)]

/-- Decimal digit string of `n`. -/
def natDigits (n : Nat) : Str := natDigitsAux (n + 1) n

/-- Python `f"{n:02d}"` for a non-negative integer: zero-pad to a minimum
width of two. -/
def pad2 (n : Nat) : Str := if n < 10 then '0' :: natDigits n else natDigits n

/-- The delimiter class `[._-]` of the title clean-up regexes. -/
def isDelim (c : Char) : Bool := c = '.' ∨ c = '_' ∨ c = '-'

/-- `re.sub(r'[._-]+$', '', s)` on an already-whitespace-stripped string:
drop the trailing run of delimiters. -/
def rstripDelims (s : Str) : Str := (s.reverse.dropWhile isDelim).reverse

/-- `re.sub(r'^[._-]+', '', s)`: drop the leading run of delimiters. -/
def lstripDelims (s : Str) : Str := s.dropWhile isDelim

/-- Fuel-based worker for `delimsToSpace` (fuel = string length is always
sufficient, and the structural recursion reduces inside the kernel). -/
def delimsToSpaceAux : Nat → Str → Str
  | 0, s => s
  | _ + 1, [] => []
  | fuel + 1, c :: rest =>
      if isDelim c then ' ' :: delimsToSpaceAux fuel (rest.dropWhile isDelim)
      else c :: delimsToSpaceAux fuel rest

/-- `re.sub(r'[._-]+', ' ', s)`: replace each maximal delimiter run by a
single space. -/
def delimsToSpace (s : Str) : Str := delimsToSpaceAux s.length s

/-- ASCII lowering (Python's `str.lower()`, and the effect of
`re.IGNORECASE`, restricted to the ASCII range these patterns use). -/
def asciiLower (c : Char) : Char :=
  if 'A' ≤ c ∧ c ≤ 'Z' then Char.ofNat (c.toNat + 32) else c

/-- Case-insensitive string lowering. -/
def lowerStr (s : Str) : Str := s.map asciiLower

/-- Case-insensitive literal prefix match. -/
def ciPrefix : Str → Str → Bool
  | [], _ => true
  | _ :: _, [] => false
  | p :: ps, c :: cs => asciiLower p = asciiLower c && ciPrefix ps cs

/-- The literal alternatives of `QUALITY_TAGS_SERIES` (constants.py lines
72-78), minus the three `word\s+\d+` entries and `\d+Kbps`, which need
their own matchers. -/
def qualityLiteralsSeries : List Str :=
  ["1080p".data, "720p".data, "480p".data, "4K".data, "UHD".data,
   "HDR".data, "WEB-DL".data, "BluRay".data, "BDRip".data, "DVDRip".data,
   "x264".data, "x265".data, "HEVC".data, "AAC".data, "DTS".data,
   "AC3".data, "5.1".data, "2.0".data, "MSubs".data, "NF".data,
   "AMZN".data, "HULU".data, "DSNP".data, "HBO".data, "PARAMOUNT".data,
   "APPLE".data, "PEACOCK".data, "SHOWTIME".data, "STARZ".data,
   "VUDU".data, "FANDANGO".data, "ROKU".data, "TUBI".data,
   "CRACKLE".data, "PLUTO".data, "FREEVEE".data, "REDBOX".data]

/-- Length of the whitespace run at the head of the string. -/
def wsRun (s : Str) : Nat := (s.takeWhile pyIsSpace).length

/-- `word\s+\d+` (case-insensitive) at the head of `s`. -/
def matchWordNumAt (word : Str) (s : Str) : Bool :=
  if ciPrefix word s then
    let rest := s.drop word.length
    let ws := rest.takeWhile pyIsSpace
    decide (ws ≠ []) &&
      (match rest.drop ws.length with
       | d :: _ => pyIsDigit d
       | [] => false)
  else false

/-- `\d+Kbps` (case-insensitive) at the head of `s`. -/
def matchNumKbpsAt (s : Str) : Bool :=
  let ds := digitRun s
  decide (ds ≠ []) && ciPrefix "Kbps".data (s.drop ds.length)

/-- Does some alternative of `QUALITY_TAGS_SERIES` match at the head of
`s` (under `re.IGNORECASE`)?  Which alternative matches does not matter:
the whole `QUALITY_PATTERN_SERIES` match always extends to the end of the
string. -/
def qualityAltSeriesAt (s : Str) : Bool :=
  qualityLiteralsSeries.any (fun p => ciPrefix p s) || matchNumKbpsAt s ||
  matchWordNumAt "Episode".data s || matchWordNumAt "Ep".data s ||
  matchWordNumAt "Part".data s

/-- Does `QUALITY_PATTERN_SERIES = r'\s*(...).*$'` match starting at the
head of `s`?  `\s*` may absorb any prefix of the whitespace run before an
alternative.  (The embedding assumes the filename holds no newline, so
the trailing `.*$` always succeeds.) -/
def qualityMatchAt (s : Str) : Bool :=
  (List.range (wsRun s + 1)).any (fun k => qualityAltSeriesAt (s.drop k))

/-- Index of the leftmost `QUALITY_PATTERN_SERIES` match. -/
def firstQualityIdx : Str → Option Nat
  | [] => none
  | s@(_ :: rest) =>
      if qualityMatchAt s then some 0
      else (firstQualityIdx rest).map (· + 1)

/-- `re.sub(QUALITY_PATTERN_SERIES, '', s, flags=re.IGNORECASE)`
(filename_processor.py lines 52-53): the match runs to the end of the
string, so everything from the leftmost match position is deleted. -/
def qualitySub (s : Str) : Str :=
  match firstQualityIdx s with
  | none => s
  | some i => s.take i

/-- `extract_series_info` (filename_processor.py lines 16-70).  Returns
`none` for Python's all-`None` tuple, else
`(series_title, season_episode_tag, season_num, episode_num,
episode_title)`. -/
def extract_series_info (filename : Str) :
    Option (Str × Str × Nat × Nat × Option Str) :=
  let baseName := splitextBase filename
  let protectedName := protectAbbrev baseName
  match seSearch protectedName with
  | none => none
  | some (i, d1, d2, len) =>
      let seasonNum := digitsToNat d1
      let episodeNum := digitsToNat d2
      let tag := 'S' :: (pad2 seasonNum ++ 'E' :: pad2 episodeNum)
      let seriesTitle0 := rstripDelims (pyStrip (protectedName.take i))
      let seriesTitle1 := pyStrip (delimsToSpace seriesTitle0)
      let episodePart := lstripDelims (pyStrip (protectedName.drop (i + len)))
      let episodeTitle0 := rstripDelims (pyStrip (qualitySub episodePart))
      let episodeTitle1 := pyStrip (delimsToSpace episodeTitle0)
      let seriesTitle2 := pyStrip (restoreAbbrev seriesTitle1)
      let episodeTitle2 :=
        if episodeTitle1 ≠ [] then restoreAbbrev episodeTitle1
        else episodeTitle1
      let episodeTitleOpt :=
        if episodeTitle2 ≠ [] then some (pyStrip episodeTitle2) else none
      let episodeTitleFinal :=
        match episodeTitleOpt with
        | some t =>
            if t.length < 2 ∨ lowerStr t = "episode".data ∨
                lowerStr t = "ep".data then none
            else some t
        | none => none
      some (seriesTitle2, tag, seasonNum, episodeNum, episodeTitleFinal)

/- ## §4.6 LineWrapper: `break_long_subtitle_lines`
(src/core/utils/text_utils.py lines 11-89) -/

/-- `break_chars` (text_utils.py line 68), in order of preference. -/
def breakChars : List Str :=
  [". ".data, "! ".data, "? ".data, ", ".data, "; ".data,
   " - ".data, " – ".data, " — ".data]

/-- The `for char in break_chars` loop of `find_best_break_point`
(text_utils.py lines 70-73): return for the first break string whose last
occurrence lies beyond half the budget, else keep looking.
`2 * lastPos > maxLength` models Python's `last_pos > max_length * 0.5`
(exact: 0.5 is a binary float). -/
def fbbpLoop (search : Str) (maxLength : Nat) : List Str → Option Nat
  | [] => none
  | bc :: rest =>
      match rfindSub bc search with
      | some lastPos =>
          if 2 * lastPos > maxLength then some (lastPos + bc.length)
          else fbbpLoop search maxLength rest
      | none => fbbpLoop search maxLength rest

/-- `find_best_break_point` (text_utils.py lines 60-75); `none` models the
`-1` sentinel. -/
def find_best_break_point (text : Str) (maxLength : Nat) : Option Nat :=
  if text.length ≤ maxLength then none
  else fbbpLoop (text.take maxLength) maxLength breakChars

/-- `find_word_boundary` (text_utils.py lines 78-89); `none` models the
`-1` sentinel.  `10 * lastSpace > 3 * maxLength` models Python's
`last_space > max_length * 0.3`; for the one budget the program uses
(`max_length = 45`, threshold 13.5) the two comparisons agree. -/
def find_word_boundary (text : Str) (maxLength : Nat) : Option Nat :=
  if text.length ≤ maxLength then none
  else
    match rfindSub [' '] (text.take maxLength) with
    | some lastSpace =>
        if 10 * lastSpace > 3 * maxLength then some (lastSpace + 1) else none
    | none => none

/-- The break position one loop iteration picks (text_utils.py lines
37-44): best break point, else word boundary, else hard cut at the
budget. -/
def chooseBreak (remaining : Str) (maxLength : Nat) : Nat :=
  match find_best_break_point remaining maxLength with
  | some b => b
  | none =>
      match find_word_boundary remaining maxLength with
      | some b => b
      | none => maxLength

/-- The `while len(remaining_text) > max_line_length` loop (text_utils.py
lines 36-53), fuel-based: every iteration shortens the text (for the
budget 45 actually in use), so fuel equal to the initial length is always
sufficient. -/
def breakLoopAux (maxLength : Nat) : Nat → Str → List Str
  | 0, remaining => if remaining ≠ [] then [remaining] else []
  | fuel + 1, remaining =>
      if remaining.length ≤ maxLength then
        if remaining ≠ [] then [remaining] else []
      else
        let b := chooseBreak remaining maxLength
        let current := pyStrip (remaining.take b)
        let rest := pyStrip (remaining.drop b)
        (if current ≠ [] then [current] else []) ++ breakLoopAux maxLength fuel rest

/-- The successive `(remaining_text, chosen break)` pairs of the loop. -/
def breakTraceAux (maxLength : Nat) : Nat → Str → List (Str × Nat)
  | 0, _ => []
  | fuel + 1, remaining =>
      if remaining.length ≤ maxLength then []
      else
        let b := chooseBreak remaining maxLength
        (remaining, b) :: breakTraceAux maxLength fuel (pyStrip (remaining.drop b))

/-- The break trace of one stripped line, as `break_long_subtitle_lines`
iterates it. -/
def lineBreakTrace (line : Str) (maxLength : Nat) : List (Str × Nat) :=
  breakTraceAux maxLength (pyStrip line).length (pyStrip line)

/-- `break_long_subtitle_lines` (text_utils.py lines 11-57). -/
def break_long_subtitle_lines (text : Str) (maxLineLength : Nat := 45) : Str :=
  if text = [] ∨ text.length ≤ maxLineLength then text
  else
    let lines := splitChar '\n' text
    let processed := lines.flatMap
      (fun line =>
        if line.length ≤ maxLineLength then [line]
        else breakLoopAux maxLineLength (pyStrip line).length (pyStrip line))
    List.intercalate ['\n'] processed

/-- "Contains no punctuation": none of the characters appearing in the
`break_chars` sequences other than the space. -/
def noPunct (s : Str) : Bool :=
  s.all (fun c =>
    !(c = '.' ∨ c = '!' ∨ c = '?' ∨ c = ',' ∨ c = ';' ∨
      c = '-' ∨ c = '–' ∨ c = '—'))

/- ## §4.4/§4.5 SubtitleConverter
(src/core/subtitles/subtitle_converter.py; src/core/mkv_cleaner.py
lines 507-605) -/

/-- `s.endswith(suffix)`. -/
def endsWithStr (suffix s : Str) : Bool := List.isSuffixOf suffix s

/-- `f"{n:0Nd}"` for a natural number: left-pad with zeros to width `w`. -/
def padNat (w : Nat) (n : Nat) : Str :=
  let d := natDigits n
  List.replicate (w - d.length) '0' ++ d

/-- `f"{i:0Nd}"` for an integer: the sign counts towards the width. -/
def padInt (w : Nat) (i : Int) : Str :=
  if i < 0 then '-' :: padNat (w - 1) i.natAbs else padNat w i.toNat

/-- The zero timestamp both converters fall back to. -/
def zeroTimestamp : Str := "00:00:00,000".data

/-- `f"{h:02d}:{m:02d}:{s:02d},{ms:03d}"`. -/
def formatSrtTime (h m sec ms : Int) : Str :=
  padInt 2 h ++ ':' :: (padInt 2 m ++ ':' :: (padInt 2 sec ++ ',' :: padInt 3 ms))

/-- The happy path of `convert_ass_time_to_srt` (subtitle_converter.py
lines 194-208): `none` models a raised exception (failed `int(...)`) or
a field count other than three.  `parts[i]` is modelled as
`(parts[i]?).getD []`; every access the code performs is in bounds. -/
def convert_ass_time_core (assTime : Str) : Option Str :=
  let parts := splitChar ':' assTime
  if parts.length = 3 then
    (pyInt ((parts[0]?).getD [])).bind fun hours =>
    (pyInt ((parts[1]?).getD [])).bind fun minutes =>
    let sc := splitChar '.' ((parts[2]?).getD [])
    (pyInt ((sc[0]?).getD [])).bind fun seconds =>
    if sc.length > 1 then
      (pyInt ((sc[1]?).getD [])).map fun centi =>
        formatSrtTime hours minutes seconds (centi * 10)
    else some (formatSrtTime hours minutes seconds 0)
  else none

/-- `convert_ass_time_to_srt` (subtitle_converter.py lines 188-213);
every exception path and the wrong-field-count path return the zero
timestamp (lines 210-213). -/
def convert_ass_time_to_srt (assTime : Str) : Str :=
  (convert_ass_time_core assTime).getD zeroTimestamp

/-- An optional leading sign; returns (isNegative, rest). -/
def parseSign : Str → (Bool × Str)
  | '+' :: r => (false, r)
  | '-' :: r => (true, r)
  | s => (false, s)

/-- Python `float(s)` on the decimal forms these inputs use:
`[ws][sign]digits[.digits][e[sign]digits][ws]`, lower- or upper-case
exponent marker.  Returns (negative, mantissa, fraction length,
exponent); `none` models a raised `ValueError`.  (`inf`/`nan` are
rejected here; in Python the subsequent `int(...)` raises on them, so
both roads end at the zero timestamp.  Binary-float rounding is modelled
as exact rational arithmetic.) -/
def parseDecFloat (s : Str) : Option (Bool × Nat × Nat × Int) :=
  let t := lowerStr (pyStrip s)
  let st := parseSign t
  let neg := st.1
  let t1 := st.2
  let dInt := t1.takeWhile pyIsDigit
  let t2 := t1.drop dInt.length
  let fr :=
    match t2 with
    | '.' :: r => (r.takeWhile pyIsDigit, r.drop (r.takeWhile pyIsDigit).length)
    | _ => (([] : Str), t2)
  let dFrac := fr.1
  let t3 := fr.2
  if dInt = [] ∧ dFrac = [] then none
  else
    let mant := digitsToNat (dInt ++ dFrac)
    let fracLen := dFrac.length
    match t3 with
    | [] => some (neg, mant, fracLen, 0)
    | 'e' :: r =>
        let er := parseSign r
        let eds := er.2.takeWhile pyIsDigit
        if eds ≠ [] ∧ er.2.drop eds.length = [] then
          some (neg, mant, fracLen,
            if er.1 then -(digitsToNat eds : Int) else (digitsToNat eds : Int))
        else none
    | _ => none

/-- `int(value * scale)` for a parsed decimal `value`, truncating toward
zero as Python's `int()` does. -/
def decFloatToIntScaled (p : Bool × Nat × Nat × Int) (scale : Nat) : Int :=
  let e : Int := p.2.2.2 - p.2.2.1
  let mag : Nat :=
    if 0 ≤ e then p.2.1 * scale * 10 ^ e.toNat
    else (p.2.1 * scale) / 10 ^ (-e).toNat
  if p.1 then -(mag : Int) else (mag : Int)

/-- `s[:3].ljust(3, '0')`. -/
def ljustZero3 (s : Str) : Str := s ++ List.replicate (3 - s.length) '0'

/-- Normalise a millisecond count into `HH:MM:SS,mmm` with Python's
floor division and modulus (`Int.fdiv` / `Int.emod`), subtitle_converter
lines 286-293. -/
def msToSrtTime (ms0 : Int) : Str :=
  formatSrtTime (Int.fdiv ms0 3600000) (Int.fdiv (Int.emod ms0 3600000) 60000)
    (Int.fdiv (Int.emod (Int.emod ms0 3600000) 60000) 1000)
    (Int.emod (Int.emod (Int.emod ms0 3600000) 60000) 1000)

/-- The happy path of `convert_ttml_time_to_srt` (subtitle_converter.py
lines 280-317): `none` models a raised exception or an unrecognized
shape. -/
def convert_ttml_time_core (t : Str) : Option Str :=
  if endsWithStr ['s'] t then
    (if endsWithStr ("ms".data) t then
      (parseDecFloat (t.take (t.length - 2))).map (fun p => decFloatToIntScaled p 1)
    else
      (parseDecFloat (t.take (t.length - 1))).map
        (fun p => decFloatToIntScaled p 1000)).map msToSrtTime
  else if containsSub [':'] t then
    let parts := splitChar ':' t
    if 3 ≤ parts.length then
      (pyInt ((parts[0]?).getD [])).bind fun hours =>
      (pyInt ((parts[1]?).getD [])).bind fun minutes =>
      let sp := (parts[2]?).getD []
      if containsSub ['.'] sp then
        let sc := splitChar '.' sp
        (pyInt ((sc[0]?).getD [])).bind fun seconds =>
        (pyInt (ljustZero3 (((sc[1]?).getD []).take 3))).map fun ms =>
          formatSrtTime hours minutes seconds ms
      else
        (pyInt sp).map fun seconds => formatSrtTime hours minutes seconds 0
    else none
  else none

/-- `convert_ttml_time_to_srt` (subtitle_converter.py lines 271-320);
every exception path and every unrecognized shape returns the zero
timestamp (lines 317 and 319-320). -/
def convert_ttml_time_to_srt (t : Str) : Str :=
  (convert_ttml_time_core t).getD zeroTimestamp

/-- `re.sub(r'\{[^}]*\}', '', s)`: delete each `{...}` override block;
a `{` with no closing `}` anywhere after it stays (and then nothing later
can match either). -/
def stripBracesAux : Nat → Str → Str
  | 0, s => s
  | _ + 1, [] => []
  | fuel + 1, c :: rest =>
      if c = '{' then
        let run := rest.takeWhile (fun d => d ≠ '}')
        match rest.drop run.length with
        | _ :: tail => stripBracesAux fuel tail
        | [] => c :: rest
      else c :: stripBracesAux fuel rest

/-- `re.sub(r'\{[^}]*\}', '', s)`. -/
def stripBraces (s : Str) : Str := stripBracesAux s.length s

/-- `line.split(sep, maxsplit)` for a 1-character separator. -/
def splitCharN (sep : Char) : Nat → Str → List Str
  | 0, s => [s]
  | n + 1, s =>
      let pre := s.takeWhile (fun c => c ≠ sep)
      match s.drop pre.length with
      | [] => [s]
      | _ :: tail => pre :: splitCharN sep n tail

/-- The vector-drawing token list (subtitle_converter.py line 144 and
mkv_cleaner.py lines 529 and 553). -/
def assVectorTokens : List Str :=
  [" m ".data, " b ".data, " l ".data, " c ".data, " z ".data,
   "M ".data, "L ".data, "C ".data, "Z ".data]

/-- The ASS text clean-up shared by the converter and the detector:
strip `{...}` override tags, turn literal `\N`/`\n` into newlines, strip. -/
def assCleanText (text : Str) : Str :=
  pyStrip (replaceAll ('\\' :: ['n']) ['\n']
    (replaceAll ('\\' :: ['N']) ['\n'] (stripBraces text)))

/-- What one `Dialogue:` line contributes in `convert_ass_to_srt_basic`
(subtitle_converter.py lines 131-161): `none` when the line is skipped
(not a dialogue line, too few fields, vector drawing, empty or
degenerate text). -/
def assDialogueEntry (line : Str) : Option (Str × Str × Str) :=
  if startsWithStr ("Dialogue:".data) line then
    let parts := splitCharN ',' 9 line
    if parts.length ≥ 10 then
      let startSrt := convert_ass_time_to_srt (pyStrip ((parts.get? 1).getD []))
      let endSrt := convert_ass_time_to_srt (pyStrip ((parts.get? 2).getD []))
      let text0 := pyStrip ((parts.get? 9).getD [])
      if assVectorTokens.any (fun p => containsSub p text0) then none
      else
        let text1 := assCleanText text0
        if text1 = [] then none
        else
          let text2 := break_long_subtitle_lines text1 45
          let squeezed := text2.filter (fun c => ¬ (c = '\n' ∨ c = ' '))
          if squeezed.dedup.length ≤ 1 then none
          else if squeezed.length ≤ 2 then none
          else some (startSrt, endSrt, text2)
    else none
  else none

/-- The `seen_entries` deduplication step (subtitle_converter.py lines
163-168): append an entry only if it was not collected before. -/
def assStep (acc : List (Str × Str × Str)) (line : Str) :
    List (Str × Str × Str) :=
  match assDialogueEntry line with
  | none => acc
  | some e => if e ∈ acc then acc else acc ++ [e]

/-- The entry sequence `convert_ass_to_srt_basic` emits (subtitle lines
collected with deduplication, then `lines.sort(key=lambda x: x[0])` —
Python's stable sort by the rendered start-time string). -/
def convert_ass_to_srt_entries (content : Str) : List (Str × Str × Str) :=
  sortLe (fun a b => strLe a.1 b.1)
    ((splitChar '\n' content).foldl assStep [])

/-- The quote class `["\']`. -/
def quoteChar (c : Char) : Bool := c = '"' ∨ c = '\''

/-- Candidate lengths for a greedy `[^>]*`: longest first. -/
def greedyLens (s : Str) (pos : Nat) : List Nat :=
  (List.range (((s.drop pos).takeWhile (fun c => c ≠ '>')).length + 1)).reverse

/-- Candidate lengths for a lazy `(.*?)` (DOTALL): shortest first. -/
def lazyLens (s : Str) (pos : Nat) : List Nat :=
  List.range (s.length - pos + 1)

/-- Backtracking match of `[^>]*NAME=["\'](.*?)["\']` at `pos`, feeding
the capture and the position after the closing quote to the
continuation; candidates are tried in Python's backtracking order
(greedy `[^>]*` longest first, lazy `(.*?)` shortest first). -/
def matchAttrVal (attr : Str) (s : Str) (pos : Nat)
    (k : Nat → Str → Option (Str × Str × Str × Nat)) :
    Option (Str × Str × Str × Nat) :=
  (greedyLens s pos).findSome? (fun aLen =>
    let p1 := pos + aLen
    if ciPrefix (attr ++ ['=']) (s.drop p1) then
      let p2 := p1 + attr.length + 1
      if ((s.drop p2).head?.map quoteChar).getD false then
        let p3 := p2 + 1
        (lazyLens s p3).findSome? (fun gLen =>
          let p4 := p3 + gLen
          if ((s.drop p4).head?.map quoteChar).getD false then
            k (p4 + 1) ((s.drop p3).take gLen)
          else none)
      else none
    else none)

/-- Backtracking match of one TTML paragraph pattern
`<p[^>]*A1=["\'](.*?)["\'][^>]*A2=["\'](.*?)["\'][^>]*>(.*?)</p>`
(IGNORECASE, DOTALL) at position `i`; returns the three captures and the
match end. -/
def matchPAt (attr1 attr2 : Str) (s : Str) (i : Nat) :
    Option (Str × Str × Str × Nat) :=
  if ciPrefix ('<' :: ['p']) (s.drop i) then
    matchAttrVal attr1 s (i + 2) (fun pA g1 =>
      matchAttrVal attr2 s pA (fun pB g2 =>
        (greedyLens s pB).findSome? (fun cLen =>
          let p5 := pB + cLen
          if (s.drop p5).head? = some '>' then
            let p6 := p5 + 1
            (lazyLens s p6).findSome? (fun g3Len =>
              let p7 := p6 + g3Len
              if ciPrefix ("</p>".data) (s.drop p7) then
                some (g1, g2, (s.drop p6).take g3Len, p7 + 4)
              else none)
          else none)))
  else none

/-- Leftmost paragraph match at or after `pos`. -/
def firstMatchFrom (attr1 attr2 : Str) (s : Str) (pos : Nat) :
    Option (Str × Str × Str × Nat) :=
  (List.range (s.length + 1 - pos)).findSome?
    (fun d => matchPAt attr1 attr2 s (pos + d))

/-- `re.findall` for one paragraph pattern: repeated leftmost matches,
resuming after each match end (every match is at least six characters
long, so fuel equal to the content length is always sufficient). -/
def findallPAux (attr1 attr2 : Str) (s : Str) :
    Nat → Nat → List (Str × Str × Str)
  | 0, _ => []
  | fuel + 1, pos =>
      match firstMatchFrom attr1 attr2 s pos with
      | none => []
      | some (g1, g2, g3, endPos) =>
          (g1, g2, g3) :: findallPAux attr1 attr2 s fuel endPos

/-- `re.findall(pattern, content, re.DOTALL | re.IGNORECASE)` for one of
the three paragraph patterns. -/
def findallP (attr1 attr2 : Str) (s : Str) : List (Str × Str × Str) :=
  findallPAux attr1 attr2 s (s.length + 1) 0

/-- `re.sub(r'<[^>]+>', '', s)`: delete each non-empty tag. -/
def stripTagsAux : Nat → Str → Str
  | 0, s => s
  | _ + 1, [] => []
  | fuel + 1, c :: rest =>
      if c = '<' then
        let run := rest.takeWhile (fun d => d ≠ '>')
        if run ≠ [] ∧ (rest.drop run.length).head? = some '>' then
          stripTagsAux fuel (rest.drop (run.length + 1))
        else c :: stripTagsAux fuel rest
      else c :: stripTagsAux fuel rest

/-- `re.sub(r'<[^>]+>', '', s)`. -/
def stripTags (s : Str) : Str := stripTagsAux s.length s

/-- `re.sub(r'\s+', ' ', s)`: collapse each whitespace run to one space. -/
def wsCollapseAux : Nat → Str → Str
  | 0, s => s
  | _ + 1, [] => []
  | fuel + 1, c :: rest =>
      if pyIsSpace c then ' ' :: wsCollapseAux fuel (rest.dropWhile pyIsSpace)
      else c :: wsCollapseAux fuel rest

/-- `re.sub(r'\s+', ' ', s)`. -/
def wsCollapse (s : Str) : Str := wsCollapseAux s.length s

/-- The TTML text clean-up (subtitle_converter.py lines 240-244): strip
inner tags, unescape the three entities, newlines to spaces, strip,
collapse whitespace. -/
def ttmlProcessText (raw : Str) : Str :=
  wsCollapse (pyStrip (replaceAll ['\n'] [' ']
    (replaceAll ("&amp;".data) ['&']
      (replaceAll ("&gt;".data) ['>']
        (replaceAll ("&lt;".data) ['<'] (stripTags raw))))))

/-- What one raw paragraph match contributes (subtitle_converter.py lines
233-248): `none` when the cleaned text is empty. -/
def ttmlEntryOf (m : Str × Str × Str) : Option (Str × Str × Str) :=
  let text := ttmlProcessText m.2.2
  if text ≠ [] then
    some (convert_ttml_time_to_srt (pyStrip m.1),
      convert_ttml_time_to_srt (pyStrip m.2.1),
      break_long_subtitle_lines text 45)
  else none

/-- The pattern loop of `convert_ttml_to_srt_basic` (lines 224-251): the
first pattern with any raw match wins (`if matches: break`). -/
def ttmlCollect (content : Str) : List (Str × Str × Str) :=
  let m1 := findallP ("begin".data) ("end".data) content
  if m1 ≠ [] then m1.filterMap ttmlEntryOf
  else
    let m2 := findallP ("start".data) ("end".data) content
    if m2 ≠ [] then m2.filterMap ttmlEntryOf
    else (findallP ("begin".data) ("dur".data) content).filterMap ttmlEntryOf

/-- The entry sequence `convert_ttml_to_srt_basic` emits (no
deduplication, then the stable sort by the rendered start string). -/
def convert_ttml_to_srt_entries (content : Str) : List (Str × Str × Str) :=
  sortLe (fun a b => strLe a.1 b.1) (ttmlCollect content)

/-- `\d{2}:\d{2}:\d{2},\d{3}` at the head of `s` (fixed widths, no
backtracking). -/
def ts12 : Str → Bool
  | a :: b :: c1 :: d :: e :: c2 :: f :: g :: c3 :: h :: i :: j :: _ =>
      pyIsDigit a && pyIsDigit b && c1 = ':' && pyIsDigit d && pyIsDigit e &&
        c2 = ':' && pyIsDigit f && pyIsDigit g && c3 = ',' &&
        pyIsDigit h && pyIsDigit i && pyIsDigit j
  | _ => false

/-- `\d{2}:\d{2}:\d{2},\d{3}\s*-->\s*\d{2}:\d{2}:\d{2},\d{3}` at the head
of `s`: since `-` and digits are not whitespace, each greedy `\s*` must
consume exactly the maximal whitespace run. -/
def tsBlockAt (s : Str) : Bool :=
  ts12 s &&
    (let r1 := s.drop 12
     let w1 := r1.takeWhile pyIsSpace
     let r2 := r1.drop w1.length
     startsWithStr ("-->".data) r2 &&
       (let r3 := r2.drop 3
        ts12 (r3.drop (r3.takeWhile pyIsSpace).length)))

/-- The strict SRT pattern of `is_srt_format` (subtitle_converter.py line
22, `re.MULTILINE`): at some line start, a digit run, then whitespace
whose last character is a newline, then a timecode arrow line.  (`\s*\n`
followed by `\d` forces the newline to sit at the very end of the
whitespace run.) -/
def srtPatternMatch (content : Str) : Bool :=
  (List.range (content.length + 1)).any (fun i =>
    (decide (i = 0) || decide (content[i - 1]? = some '\n')) &&
      (let t := content.drop i
       let ds := t.takeWhile pyIsDigit
       decide (ds ≠ []) &&
         (let w := (t.drop ds.length).takeWhile pyIsSpace
          decide (w.getLast? = some '\n') &&
            tsBlockAt (t.drop (ds.length + w.length)))))

/-- `^\d+\s*$` (MULTILINE) somewhere in the content: some newline-split
line is one digit run followed only by (non-newline) whitespace. -/
def hasNumberingLine (content : Str) : Bool :=
  (splitChar '\n' content).any (fun line =>
    let ds := line.takeWhile pyIsDigit
    decide (ds ≠ []) && (line.drop ds.length).all pyIsSpace)

/-- `is_srt_format` (subtitle_converter.py lines 16-30) on the decoded
text content (the file read is modelled as the given string; only the
first 2000 characters are inspected). -/
def is_srt_format (content0 : Str) : Bool :=
  let content := content0.take 2000
  srtPatternMatch content ||
    (containsSub ("-->".data) content && containsSub [','] content &&
      hasNumberingLine content)

/-- UTF-8 encoding of one character (for the `open(..., 'rb')` byte
check). -/
def utf8Encode (c : Char) : List Nat :=
  let n := c.toNat
  if n < 128 then [n]
  else if n < 2048 then [192 + n / 64, 128 + n % 64]
  else if n < 65536 then
    [224 + n / 4096, 128 + (n / 64) % 64, 128 + n % 64]
  else
    [240 + n / 262144, 128 + (n / 4096) % 64, 128 + (n / 64) % 64,
     128 + n % 64]

/-- The byte sequence of a text file holding `s` (UTF-8). -/
def utf8Bytes (s : Str) : List Nat := s.flatMap utf8Encode

/-- `first_bytes = f.read(100)` (mkv_cleaner.py lines 514-515). -/
def firstBytes (content : Str) : List Nat := (utf8Bytes content).take 100

/-- Byte-sequence containment (`needle in haystack` on `bytes`). -/
def byteSeqIn (needle : List Nat) : List Nat → Bool
  | [] => needle.isPrefixOf []
  | hay@(_ :: rest) => needle.isPrefixOf hay || byteSeqIn needle rest

/-- `first_bytes.startswith(b'PG') or b'\x50\x47' in first_bytes[:10]`
(mkv_cleaner.py line 517; `\x50\x47` IS `PG`). -/
def pgMagicCheck (bytes : List Nat) : Bool :=
  List.isPrefixOf [80, 71] bytes || byteSeqIn [80, 71] (bytes.take 10)

/-- The ASS text-content test of the detector (mkv_cleaner.py lines
543-557): one `Dialogue:` line whose cleaned text is non-empty, free of
vector tokens, with more than one distinct and more than two non-space
characters.  (Unlike the converter, the vector-token check here runs on
the cleaned text.) -/
def assLineHasText (line : Str) : Bool :=
  startsWithStr ("Dialogue:".data) line &&
    (let parts := splitCharN ',' 9 line
     decide (parts.length ≥ 10) &&
       (let text := assCleanText (pyStrip ((parts.get? 9).getD []))
        decide (text ≠ []) &&
          !(assVectorTokens.any (fun p => containsSub p text)) &&
          (let squeezed := text.filter (fun c => ¬ (c = '\n' ∨ c = ' '))
           decide (squeezed.dedup.length > 1) && decide (squeezed.length > 2))))

/-- `has_text_content` over the whole file. -/
def assHasTextContent (content : Str) : Bool :=
  (splitChar '\n' content).any assLineHasText

/-- Which branch of `process_subtitles_with_conversion`'s detection chain
(mkv_cleaner.py lines 507-605) handles an extracted subtitle. -/
inductive SubtitleRoute where
  | srtPassThrough
  | bitmapFail
  | vectorFail
  | assVectorOnlyFail
  | assConvert
  | ttmlConvert
  | xmlVariantConvert
  | xmlGenericConvert
  | unknownTextConvert
deriving DecidableEq, Repr

/-- The detection chain of `process_subtitles_with_conversion`
(mkv_cleaner.py lines 507-605) on the extracted track's content: the
SRT check reads the text, the bitmap check reads the first 100 raw
bytes, the remaining checks read the first 1000 text characters. -/
def classifyExtracted (content : Str) : SubtitleRoute :=
  if is_srt_format content then .srtPassThrough
  else if pgMagicCheck (firstBytes content) then .bitmapFail
  else
    let firstLines := content.take 1000
    if assVectorTokens.any (fun p => containsSub p firstLines) then .vectorFail
    else if containsSub ("[Script Info]".data) firstLines ∨
        containsSub ("Dialogue:".data) firstLines then
      if assHasTextContent content then .assConvert else .assVectorOnlyFail
    else if (containsSub ("<tt ".data) firstLines ∨
        containsSub ("<p ".data) firstLines) ∧
        containsSub ("begin=".data) firstLines then .ttmlConvert
    else if containsSub ("<?xml".data) firstLines ∧
        containsSub ("<p".data) firstLines then .xmlVariantConvert
    else if containsSub ['<'] firstLines ∧ containsSub ['>'] firstLines then
      .xmlGenericConvert
    else .unknownTextConvert

/-- `conversion_success = False` branches of the chain. -/
def routeFails : SubtitleRoute → Bool
  | .bitmapFail | .vectorFail | .assVectorOnlyFail => true
  | _ => false

/-- The `conversion_msg` recorded by the three failing branches
(mkv_cleaner.py lines 523, 536, 566). -/
def failMsg : SubtitleRoute → Str
  | .bitmapFail => "PGS subtitles are bitmap images, not text".data
  | .vectorFail => "Vector graphics subtitles are image-based, not text".data
  | .assVectorOnlyFail => "ASS file contains only vector graphics, not text".data
  | _ => []

/-- The branches that go on to call `convert_subtitle_to_srt` (and hence
may produce subtitle entries); the failing branches and the SRT rename
never do. -/
def routeInvokesConverter : SubtitleRoute → Bool
  | .assConvert | .ttmlConvert | .xmlVariantConvert
  | .xmlGenericConvert | .unknownTextConvert => true
  | _ => false

end Mkv

namespace Mkv

theorem searchBracket_some_ne_nil :
    ∀ {s r : Str}, searchBracket s = some r → r ≠ [] := by
  intro s
  induction s with
  | nil => intro r h; simp [searchBracket] at h
  | cons c rest ih =>
      intro r h
      simp only [searchBracket] at h
      split at h
      · split at h
        · rename_i hcond
          cases h
          exact hcond.1
        · exact ih h
      · exact ih h

theorem extract_source_some_ne_nil {n r : Str}
    (h : extract_source n = some r) : r ≠ [] := by
  unfold extract_source at h
  split at h
  · cases h
  · exact searchBracket_some_ne_nil h

theorem addUnsourced_normal (b : Bucket) (t : Track) :
    (addUnsourced b t).normal = if t.forced then b.normal else b.normal ++ [t] := by
  simp only [addUnsourced]
  split <;> rfl

theorem addUnsourced_forced (b : Bucket) (t : Track) :
    (addUnsourced b t).forced = if t.forced then b.forced ++ [t] else b.forced := by
  simp only [addUnsourced]
  split <;> rfl

theorem BucketTag_addUnsourced {l : List Track} {tag : Option Str} {b : Bucket}
    {t : Track} (hb : BucketTag l tag b) (ht : t ∈ l)
    (htag : extract_source t.trackName = tag) :
    BucketTag l tag (addUnsourced b t) := by
  obtain ⟨hn, hf⟩ := hb
  constructor
  · intro x hx
    rw [addUnsourced_normal] at hx
    split at hx
    · exact hn x hx
    · rename_i hforced
      rcases List.mem_append.mp hx with h1 | h2
      · exact hn x h1
      · have hx2 : x = t := by simpa using h2
        subst hx2
        exact ⟨ht, htag, by simpa using hforced⟩
  · intro x hx
    rw [addUnsourced_forced] at hx
    split at hx
    · rename_i hforced
      rcases List.mem_append.mp hx with h1 | h2
      · exact hf x h1
      · have hx2 : x = t := by simpa using h2
        subst hx2
        exact ⟨ht, htag, hforced⟩
    · exact hf x hx

theorem mem_addSourced :
    ∀ {ss : List (Str × Bucket)} {src : Str} {t : Track} {kb : Str × Bucket},
      kb ∈ addSourced ss src t →
      kb ∈ ss ∨ ∃ b, kb = (src, addUnsourced b t) ∧
        (b = ⟨[], []⟩ ∨ (src, b) ∈ ss) := by
  intro ss
  induction ss with
  | nil =>
      intro src t kb h
      simp only [addSourced, List.mem_singleton] at h
      exact Or.inr ⟨⟨[], []⟩, h, Or.inl rfl⟩
  | cons hd rest ih =>
      intro src t kb h
      obtain ⟨k, b⟩ := hd
      simp only [addSourced] at h
      split at h
      · rename_i hk
        subst hk
        rcases List.mem_cons.mp h with h1 | h2
        · exact Or.inr ⟨b, h1, Or.inr (List.mem_cons_self _ _)⟩
        · exact Or.inl (List.mem_cons_of_mem _ h2)
      · rcases List.mem_cons.mp h with h1 | h2
        · exact Or.inl (h1 ▸ List.mem_cons_self _ _)
        · rcases ih h2 with h3 | ⟨b', hb1, hb2⟩
          · exact Or.inl (List.mem_cons_of_mem _ h3)
          · exact Or.inr ⟨b', hb1, hb2.imp id (List.mem_cons_of_mem _)⟩

theorem addSourced_keys :
    ∀ (ss : List (Str × Bucket)) (src : Str) (t : Track),
      (addSourced ss src t).map Prod.fst =
        if src ∈ ss.map Prod.fst then ss.map Prod.fst
        else ss.map Prod.fst ++ [src] := by
  intro ss
  induction ss with
  | nil => intro src t; simp [addSourced]
  | cons hd rest ih =>
      intro src t
      obtain ⟨k, b⟩ := hd
      simp only [addSourced]
      split
      · rename_i hk
        subst hk
        rw [List.map_cons, List.map_cons, if_pos (List.mem_cons_self _ _)]
      · rename_i hk
        simp only [List.map_cons]
        rw [ih]
        by_cases hmem : src ∈ rest.map Prod.fst
        · rw [if_pos hmem, if_pos (by simp [hmem])]
        · rw [if_neg hmem, if_neg, List.cons_append]
          simp only [List.mem_cons]
          rintro (h1 | h2)
          · exact hk h1.symm
          · exact hmem h2

theorem buildSources_inv (l : List Track) :
    (∀ kb ∈ (buildSources l).1, BucketTag l (some kb.1) kb.2 ∧ kb.1 ≠ []) ∧
    BucketTag l none (buildSources l).2 ∧
    ((buildSources l).1.map Prod.fst).Nodup := by
  unfold buildSources
  refine @List.foldlRecOn _ _
    (fun acc => (∀ kb ∈ acc.1, BucketTag l (some kb.1) kb.2 ∧ kb.1 ≠ []) ∧
      BucketTag l none acc.2 ∧ (acc.1.map Prod.fst).Nodup)
    l buildStep ([], ⟨[], []⟩) ?_ ?_
  · refine ⟨by simp, ⟨by simp [BucketTag], by simp [BucketTag]⟩, by simp⟩
  · rintro ⟨ss, ub⟩ ⟨h1, h2, h3⟩ t htl
    unfold buildStep
    cases hsrc : extract_source t.trackName with
    | none =>
        exact ⟨h1, BucketTag_addUnsourced h2 htl hsrc, h3⟩
    | some src =>
        refine ⟨?_, h2, ?_⟩
        · intro kb hkb
          rcases mem_addSourced hkb with hin | ⟨b, rfl, hb⟩
          · exact h1 _ hin
          · refine ⟨?_, extract_source_some_ne_nil hsrc⟩
            have hbt : BucketTag l (some src) b := by
              rcases hb with rfl | hb2
              · exact ⟨by simp, by simp⟩
              · exact (h1 _ hb2).1
            exact BucketTag_addUnsourced hbt htl hsrc
        · rw [addSourced_keys]
          split
          · exact h3
          · rw [List.nodup_append]
            rename_i hnew
            exact ⟨h3, List.nodup_singleton _, by
              intro a ha hb
              rcases List.mem_singleton.mp hb with rfl
              exact hnew ha⟩

theorem foldBuild_unsourced_forced :
    ∀ (l : List Track) (acc : List (Str × Bucket) × Bucket) (t : Track),
      (t ∈ acc.2.forced ∨
        (t ∈ l ∧ t.forced = true ∧ extract_source t.trackName = none)) →
      t ∈ (List.foldl buildStep acc l).2.forced := by
  intro l
  induction l with
  | nil =>
      rintro acc t (h | ⟨h, _, _⟩)
      · simpa using h
      · cases h
  | cons y rest ih =>
      rintro acc t (h | ⟨hmem, hforced, htag⟩)
      · refine ih _ t (Or.inl ?_)
        unfold buildStep
        cases hsrc : extract_source y.trackName with
        | some src => exact h
        | none =>
            rw [addUnsourced_forced]
            split
            · exact List.mem_append_left _ h
            · exact h
      · rcases List.mem_cons.mp hmem with rfl | h2
        · refine ih _ t (Or.inl ?_)
          unfold buildStep
          rw [htag, addUnsourced_forced, if_pos hforced]
          exact List.mem_append_right _ (List.mem_singleton_self _)
        · exact ih _ t (Or.inr ⟨h2, hforced, htag⟩)

theorem foldBuild_all_unsourced :
    ∀ (l : List Track) (acc : List (Str × Bucket) × Bucket),
      (∀ t ∈ l, extract_source t.trackName = none) →
      List.foldl buildStep acc l = (acc.1, List.foldl addUnsourced acc.2 l) := by
  intro l
  induction l with
  | nil => intro acc _; simp
  | cons y rest ih =>
      intro acc h
      have hy : extract_source y.trackName = none := h y (List.mem_cons_self _ _)
      have hrest : ∀ t ∈ rest, extract_source t.trackName = none :=
        fun t ht => h t (List.mem_cons_of_mem _ ht)
      rw [List.foldl_cons, List.foldl_cons]
      have hstep : buildStep acc y = (acc.1, addUnsourced acc.2 y) := by
        unfold buildStep
        rw [hy]
      rw [hstep]
      exact ih _ hrest

theorem foldAddUnsourced :
    ∀ (l : List Track) (b : Bucket),
      List.foldl addUnsourced b l =
        ⟨b.normal ++ l.filter (fun t => !t.forced),
         b.forced ++ l.filter (fun t => t.forced)⟩ := by
  intro l
  induction l with
  | nil => intro b; simp
  | cons y rest ih =>
      intro b
      rw [List.foldl_cons, ih]
      cases hf : y.forced with
      | true =>
          have h1 : addUnsourced b y = ⟨b.normal, b.forced ++ [y]⟩ := by
            unfold addUnsourced
            rw [if_pos hf]
          rw [h1]
          simp [List.filter_cons, hf]
      | false =>
          have h1 : addUnsourced b y = ⟨b.normal ++ [y], b.forced⟩ := by
            unfold addUnsourced
            rw [if_neg (by simp [hf])]
          rw [h1]
          simp [List.filter_cons, hf]

theorem mem_addToGroup :
    ∀ {gs : List (Str × List Track)} {lang : Str} {t : Track}
      {kg : Str × List Track},
      kg ∈ addToGroup gs lang t →
      kg ∈ gs ∨ (kg.1 = lang ∧
        (kg.2 = [t] ∨ ∃ v, (lang, v) ∈ gs ∧ kg.2 = v ++ [t])) := by
  intro gs
  induction gs with
  | nil =>
      intro lang t kg h
      simp only [addToGroup, List.mem_singleton] at h
      subst h
      exact Or.inr ⟨rfl, Or.inl rfl⟩
  | cons hd rest ih =>
      intro lang t kg h
      obtain ⟨k, v⟩ := hd
      simp only [addToGroup] at h
      split at h
      · rename_i hk
        subst hk
        rcases List.mem_cons.mp h with h1 | h2
        · subst h1
          exact Or.inr ⟨rfl, Or.inr ⟨v, List.mem_cons_self _ _, rfl⟩⟩
        · exact Or.inl (List.mem_cons_of_mem _ h2)
      · rcases List.mem_cons.mp h with h1 | h2
        · exact Or.inl (h1 ▸ List.mem_cons_self _ _)
        · rcases ih h2 with h3 | ⟨h4, h5⟩
          · exact Or.inl (List.mem_cons_of_mem _ h3)
          · refine Or.inr ⟨h4, h5.imp id ?_⟩
            rintro ⟨v', hv1, hv2⟩
            exact ⟨v', List.mem_cons_of_mem _ hv1, hv2⟩

theorem addToGroup_keys :
    ∀ (gs : List (Str × List Track)) (lang : Str) (t : Track),
      (addToGroup gs lang t).map Prod.fst =
        if lang ∈ gs.map Prod.fst then gs.map Prod.fst
        else gs.map Prod.fst ++ [lang] := by
  intro gs
  induction gs with
  | nil => intros; simp [addToGroup]
  | cons hd rest ih =>
      intro lang t
      obtain ⟨k, v⟩ := hd
      simp only [addToGroup]
      split
      · rename_i hk
        subst hk
        rw [List.map_cons, List.map_cons, if_pos (List.mem_cons_self _ _)]
      · rename_i hk
        simp only [List.map_cons]
        rw [ih]
        by_cases hmem : lang ∈ rest.map Prod.fst
        · rw [if_pos hmem, if_pos (by simp [hmem])]
        · rw [if_neg hmem, if_neg, List.cons_append]
          simp only [List.mem_cons]
          rintro (h1 | h2)
          · exact hk h1.symm
          · exact hmem h2

theorem buildLangGroups_inv (tracks : List Track) :
    (∀ kg ∈ buildLangGroups tracks, ∀ t ∈ kg.2, t.lang = kg.1 ∧ t ∈ tracks) ∧
    ((buildLangGroups tracks).map Prod.fst).Nodup := by
  unfold buildLangGroups
  refine @List.foldlRecOn _ _
    (fun acc : List (Str × List Track) =>
      (∀ kg ∈ acc, ∀ t ∈ kg.2, t.lang = kg.1 ∧ t ∈ tracks) ∧
      (acc.map Prod.fst).Nodup)
    tracks _ [] ?_ ?_
  · exact ⟨by simp, by simp⟩
  · rintro gs ⟨h1, h2⟩ t htl
    constructor
    · intro kg hkg x hx
      rcases mem_addToGroup hkg with hin | ⟨hk, hcase⟩
      · exact h1 _ hin x hx
      · rcases hcase with h3 | ⟨v, hv1, hv2⟩
        · rw [h3] at hx
          rcases List.mem_singleton.mp hx with rfl
          exact ⟨hk ▸ rfl, htl⟩
        · rw [hv2] at hx
          rcases List.mem_append.mp hx with h4 | h5
          · have := h1 _ hv1 x h4
            exact ⟨hk ▸ this.1, this.2⟩
          · rcases List.mem_singleton.mp h5 with rfl
            exact ⟨hk ▸ rfl, htl⟩
    · rw [addToGroup_keys]
      split
      · exact h2
      · rw [List.nodup_append]
        rename_i hnew
        exact ⟨h2, List.nodup_singleton _, by
          intro a ha hb
          rcases List.mem_singleton.mp hb with rfl
          exact hnew ha⟩

theorem addToGroup_mem_preserve
    {gs : List (Str × List Track)} {x : Track}
    (hx : ∃ kg ∈ gs, x ∈ kg.2) (lang : Str) (t : Track) :
    ∃ kg ∈ addToGroup gs lang t, x ∈ kg.2 := by
  induction gs with
  | nil =>
      obtain ⟨kg, hkg, _⟩ := hx
      cases hkg
  | cons hd rest ih =>
      obtain ⟨k, v⟩ := hd
      simp only [addToGroup]
      obtain ⟨kg, hkg, hxin⟩ := hx
      split
      · rcases List.mem_cons.mp hkg with rfl | h2
        · exact ⟨(k, v ++ [t]), List.mem_cons_self _ _,
            List.mem_append_left _ hxin⟩
        · exact ⟨kg, List.mem_cons_of_mem _ h2, hxin⟩
      · rcases List.mem_cons.mp hkg with rfl | h2
        · exact ⟨(k, v), List.mem_cons_self _ _, hxin⟩
        · obtain ⟨kg', hkg', hx'⟩ := ih ⟨kg, h2, hxin⟩
          exact ⟨kg', List.mem_cons_of_mem _ hkg', hx'⟩

theorem addToGroup_mem_new :
    ∀ (gs : List (Str × List Track)) (lang : Str) (t : Track),
      ∃ kg ∈ addToGroup gs lang t, t ∈ kg.2 := by
  intro gs
  induction gs with
  | nil =>
      intro lang t
      exact ⟨(lang, [t]), List.mem_singleton_self _, List.mem_singleton_self _⟩
  | cons hd rest ih =>
      intro lang t
      obtain ⟨k, v⟩ := hd
      simp only [addToGroup]
      split
      · exact ⟨(k, v ++ [t]), List.mem_cons_self _ _,
          List.mem_append_right _ (List.mem_singleton_self _)⟩
      · obtain ⟨kg, hkg, ht⟩ := ih lang t
        exact ⟨kg, List.mem_cons_of_mem _ hkg, ht⟩

theorem buildLangGroups_complete :
    ∀ (tracks : List Track) (x : Track), x ∈ tracks →
      ∃ kg ∈ buildLangGroups tracks, x ∈ kg.2 := by
  have aux : ∀ (l : List Track) (acc : List (Str × List Track)) (x : Track),
      ((∃ kg ∈ acc, x ∈ kg.2) ∨ x ∈ l) →
      ∃ kg ∈ List.foldl (fun gs t => addToGroup gs t.lang t) acc l, x ∈ kg.2 := by
    intro l
    induction l with
    | nil =>
        rintro acc x (h | h)
        · simpa using h
        · cases h
    | cons y rest ih =>
        rintro acc x (h | h)
        · exact ih _ x (Or.inl (addToGroup_mem_preserve h _ _))
        · rcases List.mem_cons.mp h with rfl | h2
          · exact ih _ x (Or.inl (addToGroup_mem_new acc x.lang x))
          · exact ih _ x (Or.inr h2)
  intro tracks x hx
  exact aux tracks [] x (Or.inr hx)

theorem buildLangGroups_const (g : List Track) (L : Str)
    (hne : g ≠ []) (h : ∀ t ∈ g, t.lang = L) :
    buildLangGroups g = [(L, g)] := by
  have aux : ∀ (l : List Track) (p : List Track),
      (∀ t ∈ l, t.lang = L) →
      List.foldl (fun gs t => addToGroup gs t.lang t) [(L, p)] l = [(L, p ++ l)] := by
    intro l
    induction l with
    | nil => intro p _; simp
    | cons y rest ih =>
        intro p hl
        have hy : y.lang = L := hl y (List.mem_cons_self _ _)
        rw [List.foldl_cons]
        have hstep : addToGroup [(L, p)] y.lang y = [(L, p ++ [y])] := by
          simp [addToGroup, hy]
        rw [hstep, ih (p ++ [y]) (fun t ht => hl t (List.mem_cons_of_mem _ ht))]
        simp
  cases g with
  | nil => exact absurd rfl hne
  | cons y rest =>
      unfold buildLangGroups
      rw [List.foldl_cons]
      have hy : y.lang = L := h y (List.mem_cons_self _ _)
      have hstep : addToGroup [] y.lang y = [(L, [y])] := by
        simp [addToGroup, hy]
      rw [hstep, aux rest [y] (fun t ht => h t (List.mem_cons_of_mem _ ht))]
      simp

theorem scoreBucket_nonneg (b : Bucket) : 0 ≤ scoreBucket b := by
  unfold scoreBucket
  split
  · norm_num
  · split
    · norm_num
    · split <;> norm_num

theorem bestFold_split :
    ∀ (ss : List (Str × Bucket)) (acc : Option Str × Int),
      (List.foldl bestStep acc ss = acc ∧
        ∀ kb ∈ ss, scoreBucket kb.2 ≤ acc.2) ∨
      ∃ pre kb post, ss = pre ++ kb :: post ∧
        scoreBucket kb.2 > acc.2 ∧
        (∀ x ∈ pre, scoreBucket x.2 < scoreBucket kb.2) ∧
        (∀ x ∈ post, scoreBucket x.2 ≤ scoreBucket kb.2) ∧
        List.foldl bestStep acc ss = (some kb.1, scoreBucket kb.2) := by
  intro ss
  induction ss with
  | nil => intro acc; exact Or.inl ⟨rfl, by simp⟩
  | cons y rest ih =>
      intro acc
      rw [List.foldl_cons]
      by_cases hy : scoreBucket y.2 > acc.2
      · have hstep : bestStep acc y = (some y.1, scoreBucket y.2) := by
          unfold bestStep
          rw [if_pos hy]
        rw [hstep]
        rcases ih (some y.1, scoreBucket y.2) with ⟨heq, hall⟩ | ⟨pre, kb, post, hsplit, hgt, hpre, hpost, heq⟩
        · exact Or.inr ⟨[], y, rest, by simp, hy, by simp, fun x hx => hall x hx, heq⟩
        · refine Or.inr ⟨y :: pre, kb, post, by rw [hsplit]; rfl, ?_, ?_, hpost, heq⟩
          · exact lt_trans hy hgt
          · intro x hx
            rcases List.mem_cons.mp hx with rfl | h2
            · exact hgt
            · exact hpre x h2
      · have hstep : bestStep acc y = acc := by
          unfold bestStep
          rw [if_neg hy]
        rw [hstep]
        rcases ih acc with ⟨heq, hall⟩ | ⟨pre, kb, post, hsplit, hgt, hpre, hpost, heq⟩
        · refine Or.inl ⟨heq, ?_⟩
          intro x hx
          rcases List.mem_cons.mp hx with rfl | h2
          · exact le_of_not_lt hy
          · exact hall x h2
        · refine Or.inr ⟨y :: pre, kb, post, by rw [hsplit]; rfl, hgt, ?_, hpost, heq⟩
          intro x hx
          rcases List.mem_cons.mp hx with rfl | h2
          · exact lt_of_le_of_lt (le_of_not_lt hy) hgt
          · exact hpre x h2

theorem bestSourceFold_spec {ss : List (Str × Bucket)} {s : Str}
    (h : (bestSourceFold ss).1 = some s) :
    ∃ pre b post, ss = pre ++ (s, b) :: post ∧
      (∀ x ∈ pre, scoreBucket x.2 < scoreBucket b) ∧
      (∀ x ∈ ss, scoreBucket x.2 ≤ scoreBucket b) := by
  unfold bestSourceFold at h
  rcases bestFold_split ss (none, -1) with ⟨heq, _⟩ | ⟨pre, kb, post, hsplit, _, hpre, hpost, heq⟩
  · rw [heq] at h
    cases h
  · rw [heq] at h
    obtain ⟨k, b⟩ := kb
    cases h
    refine ⟨pre, b, post, hsplit, hpre, ?_⟩
    intro x hx
    rw [hsplit] at hx
    rcases List.mem_append.mp hx with h1 | h2
    · exact le_of_lt (hpre x h1)
    · rcases List.mem_cons.mp h2 with rfl | h3
      · exact le_refl _
      · exact hpost x h3

theorem find?_key_first :
    ∀ {pre : List (Str × Bucket)} {post : List (Str × Bucket)} {s : Str}
      {b : Bucket}, (∀ x ∈ pre, ¬ (x.1 = s)) →
      List.find? (fun sb => decide (sb.1 = s)) (pre ++ (s, b) :: post) =
        some (s, b) := by
  intro pre
  induction pre with
  | nil =>
      intro post s b _
      rw [List.nil_append]
      exact List.find?_cons_of_pos _ (by simp)
  | cons z zs ih =>
      intro post s b hpre
      rw [List.cons_append, List.find?_cons_of_neg]
      · exact ih (fun x hx => hpre x (List.mem_cons_of_mem _ hx))
      · simpa using hpre z (List.mem_cons_self _ _)

theorem getBucketD_of_decomp {ss : List (Str × Bucket)} {s : Str} {b : Bucket}
    {pre post : List (Str × Bucket)}
    (hsplit : ss = pre ++ (s, b) :: post)
    (hnd : (ss.map Prod.fst).Nodup) :
    getBucketD ss (some s) = b := by
  subst hsplit
  have hpre : ∀ x ∈ pre, ¬ (x.1 = s) := by
    intro x hx heq
    rw [List.map_append, List.map_cons, List.nodup_append] at hnd
    exact hnd.2.2 (List.mem_map_of_mem Prod.fst hx)
      (by rw [heq]; exact List.mem_cons_self _ _)
  have hfind : List.find? (fun sb => decide (sb.1 = s)) (pre ++ (s, b) :: post) =
      some (s, b) := find?_key_first hpre
  have heq : getBucketD (pre ++ (s, b) :: post) (some s) =
      ((List.find? (fun sb => decide (sb.1 = s)) (pre ++ (s, b) :: post)).map
        (fun x => x.2)).getD ⟨[], []⟩ := rfl
  rw [heq, hfind]
  rfl

theorem getBucketD_mem {ss : List (Str × Bucket)} {k : Str} :
    (k, getBucketD ss (some k)) ∈ ss ∨ getBucketD ss (some k) = ⟨[], []⟩ := by
  have heq : getBucketD ss (some k) =
      ((List.find? (fun sb => decide (sb.1 = k)) ss).map
        (fun x => x.2)).getD ⟨[], []⟩ := rfl
  rw [heq]
  cases hfind : List.find? (fun sb => decide (sb.1 = k)) ss with
  | none => exact Or.inr rfl
  | some sb =>
      left
      have hmem := List.mem_of_find?_eq_some hfind
      have hp := List.find?_some hfind
      simp only [decide_eq_true_eq] at hp
      show (k, sb.2) ∈ ss
      rw [← hp]
      exact hmem

theorem dedupGroup_eq_parts {g : List Track} (h : ¬ g.length ≤ 1) :
    dedupGroup g =
      (if optStrTruthy (groupBest g) ∧ keyMem (groupSources g) (groupBest g) then
        (getBucketD (groupSources g) (groupBest g)).normal ++
          (getBucketD (groupSources g) (groupBest g)).forced
      else []) ++
      (if (groupUnsourced g).normal ≠ [] ∧
          ¬ (optStrTruthy (groupBest g) ∧
            (getBucketD (groupSources g) (groupBest g)).normal ≠ []) then
        (groupUnsourced g).normal
      else []) ++
      (groupUnsourced g).forced := by
  unfold dedupGroup
  rw [if_neg h]

theorem dedupGroup_of_small {g : List Track} (h : g.length ≤ 1) :
    dedupGroup g = g := by
  unfold dedupGroup
  rw [if_pos h]

theorem mem_groupAll_of_mem {g : List Track} {t : Track} (ht : t ∈ g) :
    t ∈ groupAll g := by
  unfold groupAll groupNormal groupForced
  cases hf : t.forced with
  | true => exact List.mem_append_right _ (List.mem_filter.mpr ⟨ht, by simp [hf]⟩)
  | false => exact List.mem_append_left _ (List.mem_filter.mpr ⟨ht, by simp [hf]⟩)

theorem mem_of_mem_groupAll {g : List Track} {t : Track} (ht : t ∈ groupAll g) :
    t ∈ g := by
  unfold groupAll groupNormal groupForced at ht
  rcases List.mem_append.mp ht with h | h
  · exact (List.mem_filter.mp h).1
  · exact (List.mem_filter.mp h).1

theorem dedupGroup_mem_cases {g : List Track} {t : Track}
    (hlen : ¬ g.length ≤ 1) (ht : t ∈ dedupGroup g) :
    ((optStrTruthy (groupBest g) ∧ keyMem (groupSources g) (groupBest g)) ∧
      (t ∈ (getBucketD (groupSources g) (groupBest g)).normal ∨
        t ∈ (getBucketD (groupSources g) (groupBest g)).forced)) ∨
    (((groupUnsourced g).normal ≠ [] ∧
        ¬ (optStrTruthy (groupBest g) ∧
          (getBucketD (groupSources g) (groupBest g)).normal ≠ [])) ∧
      t ∈ (groupUnsourced g).normal) ∨
    t ∈ (groupUnsourced g).forced := by
  rw [dedupGroup_eq_parts hlen] at ht
  rcases List.mem_append.mp ht with h12 | h3
  · rcases List.mem_append.mp h12 with h1 | h2
    · split at h1
      · rename_i hc
        exact Or.inl ⟨hc, List.mem_append.mp h1⟩
      · cases h1
    · split at h2
      · rename_i hc
        exact Or.inr (Or.inl ⟨hc, h2⟩)
      · cases h2
  · exact Or.inr (Or.inr h3)

theorem dedupGroup_sub {g : List Track} : ∀ t ∈ dedupGroup g, t ∈ g := by
  intro t ht
  by_cases hlen : g.length ≤ 1
  · rw [dedupGroup_of_small hlen] at ht
    exact ht
  · have hinv := buildSources_inv (groupAll g)
    rcases dedupGroup_mem_cases hlen ht with ⟨⟨htr, _⟩, hmem⟩ | ⟨_, hmem⟩ | hmem
    · have hsome : ∃ s, groupBest g = some s := by
        cases hb : groupBest g with
        | none => rw [hb] at htr; simp [optStrTruthy] at htr
        | some s => exact ⟨s, rfl⟩
      obtain ⟨s, hs⟩ := hsome
      rw [hs] at hmem
      rcases @getBucketD_mem (groupSources g) s with hbm | hempty
      · have hbt := (hinv.1 _ hbm).1
        rcases hmem with h | h
        · exact mem_of_mem_groupAll (hbt.1 t h).1
        · exact mem_of_mem_groupAll (hbt.2 t h).1
      · rw [hempty] at hmem
        rcases hmem with h | h <;> cases h
    · exact mem_of_mem_groupAll (hinv.2.1.1 t hmem).1
    · exact mem_of_mem_groupAll (hinv.2.1.2 t hmem).1

theorem dedupGroup_keeps_unsourced_forced {g : List Track} {t : Track}
    (ht : t ∈ g) (hf : t.forced = true)
    (hu : extract_source t.trackName = none) : t ∈ dedupGroup g := by
  by_cases hlen : g.length ≤ 1
  · rw [dedupGroup_of_small hlen]
    exact ht
  · rw [dedupGroup_eq_parts hlen]
    refine List.mem_append_right _ ?_
    unfold groupUnsourced buildSources
    exact foldBuild_unsourced_forced (groupAll g) _ t
      (Or.inr ⟨mem_groupAll_of_mem ht, hf, hu⟩)

theorem dedupGroup_nonforced_tag {g : List Track} {t : Track}
    (hlen : ¬ g.length ≤ 1) (ht : t ∈ dedupGroup g)
    (hnf : t.forced = false) :
    (∃ s, groupBest g = some s ∧
      (optStrTruthy (groupBest g) ∧
        (getBucketD (groupSources g) (groupBest g)).normal ≠ []) ∧
      extract_source t.trackName = some s) ∨
    (extract_source t.trackName = none ∧
      ¬ (optStrTruthy (groupBest g) ∧
        (getBucketD (groupSources g) (groupBest g)).normal ≠ [])) := by
  have hinv := buildSources_inv (groupAll g)
  rcases dedupGroup_mem_cases hlen ht with ⟨⟨htr, hkm⟩, hmem⟩ | ⟨⟨_, hnc⟩, hmem⟩ | hmem
  · have hsome : ∃ s, groupBest g = some s := by
      cases hb : groupBest g with
      | none => rw [hb] at htr; simp [optStrTruthy] at htr
      | some s => exact ⟨s, rfl⟩
    obtain ⟨s, hs⟩ := hsome
    rw [hs] at hmem
    rcases @getBucketD_mem (groupSources g) s with hbm | hempty
    · have hbt := (hinv.1 _ hbm).1
      rcases hmem with h | h
      · refine Or.inl ⟨s, hs, ⟨htr, ?_⟩, (hbt.1 t h).2.1⟩
        rw [hs]
        intro hnil
        rw [hnil] at h
        cases h
      · exact absurd (hbt.2 t h).2.2 (by rw [hnf]; simp)
    · rw [hempty] at hmem
      rcases hmem with h | h <;> cases h
  · exact Or.inr ⟨(hinv.2.1.1 t hmem).2.1, hnc⟩
  · exact absurd (hinv.2.1.2 t hmem).2.2 (by rw [hnf]; simp)

theorem assoc_eq_of_nodup {gs : List (Str × List Track)}
    (hnd : (gs.map Prod.fst).Nodup) {k : Str} {v1 v2 : List Track}
    (h1 : (k, v1) ∈ gs) (h2 : (k, v2) ∈ gs) : v1 = v2 := by
  induction gs with
  | nil => cases h1
  | cons hd rest ih =>
      obtain ⟨k0, v0⟩ := hd
      simp only [List.map_cons, List.nodup_cons] at hnd
      rcases List.mem_cons.mp h1 with e1 | m1
      · injection e1 with hk1 hv1
        rcases List.mem_cons.mp h2 with e2 | m2
        · injection e2 with hk2 hv2
          rw [hv1, hv2]
        · exfalso
          subst hk1
          exact hnd.1 (by simpa using List.mem_map_of_mem Prod.fst m2)
      · rcases List.mem_cons.mp h2 with e2 | m2
        · injection e2 with hk2 hv2
          exfalso
          subst hk2
          exact hnd.1 (by simpa using List.mem_map_of_mem Prod.fst m1)
        · exact ih hnd.2 m1 m2

theorem mem_deduplicate {tracks : List Track} {t : Track}
    (ht : t ∈ deduplicate_subtitles tracks) :
    ∃ kg ∈ buildLangGroups tracks, t ∈ dedupGroup kg.2 := by
  unfold deduplicate_subtitles at ht
  split at ht
  · rename_i hnil
    rw [hnil] at ht
    cases ht
  · obtain ⟨l, hl, htl⟩ := List.mem_flatten.mp ht
    obtain ⟨kg, hkg, hmap⟩ := List.mem_map.mp hl
    exact ⟨kg, hkg, hmap ▸ htl⟩

theorem groupAll_filter_normal (g : List Track) :
    (groupAll g).filter (fun t => !t.forced) = groupNormal g := by
  unfold groupAll
  rw [List.filter_append]
  have h1 : (groupNormal g).filter (fun t => !t.forced) = groupNormal g :=
    List.filter_eq_self.mpr (fun a ha => (List.mem_filter.mp ha).2)
  have h2 : (groupForced g).filter (fun t => !t.forced) = [] := by
    rw [List.filter_eq_nil_iff]
    intro a ha
    have := (List.mem_filter.mp ha).2
    simp_all
  rw [h1, h2, List.append_nil]

theorem groupAll_filter_forced (g : List Track) :
    (groupAll g).filter (fun t => t.forced) = groupForced g := by
  unfold groupAll
  rw [List.filter_append]
  have h1 : (groupNormal g).filter (fun t => t.forced) = [] := by
    rw [List.filter_eq_nil_iff]
    intro a ha
    have := (List.mem_filter.mp ha).2
    simp_all
  have h2 : (groupForced g).filter (fun t => t.forced) = groupForced g :=
    List.filter_eq_self.mpr (fun a ha => (List.mem_filter.mp ha).2)
  rw [h1, h2, List.nil_append]

theorem digitChar_toNat {n : Nat} (h : n < 10) :
    (Char.ofNat (48 + n)).toNat = 48 + n := by
  interval_cases n <;> decide

theorem digitChar_isDigit {n : Nat} (h : n < 10) :
    pyIsDigit (Char.ofNat (48 + n)) = true := by
  interval_cases n <;> decide

theorem digitsToNat_append_digit (ds : Str) (c : Char) :
    digitsToNat (ds ++ [c]) = 10 * digitsToNat ds + (c.toNat - 48) := by
  unfold digitsToNat
  rw [List.foldl_append]
  rfl

theorem digitsToNat_cons_zero (ds : Str) :
    digitsToNat ('0' :: ds) = digitsToNat ds := by
  unfold digitsToNat
  rfl

theorem natDigitsAux_spec :
    ∀ (fuel n : Nat), n < 10 ^ fuel → 1 ≤ fuel →
      ((natDigitsAux fuel n).all pyIsDigit = true) ∧
      digitsToNat (natDigitsAux fuel n) = n ∧
      1 ≤ (natDigitsAux fuel n).length ∧
      ((natDigitsAux fuel n).length = 1 ↔ n < 10) ∧
      ((natDigitsAux fuel n).length = 2 ↔ 10 ≤ n ∧ n < 100) := by
  intro fuel
  induction fuel with
  | zero => intro n _ h1; omega
  | succ f ih =>
      intro n hlt _
      by_cases h10 : n < 10
      · simp only [natDigitsAux, if_pos h10]
        refine ⟨by simp [digitChar_isDigit h10], ?_, by simp, by simp [h10], by simp; omega⟩
        show digitsToNat [Char.ofNat (48 + n)] = n
        unfold digitsToNat
        simp [digitChar_toNat h10]
      · have hf : 1 ≤ f := by
          rcases Nat.eq_zero_or_pos f with rfl | h
          · simp at hlt
            omega
          · exact h
        have hdiv : n / 10 < 10 ^ f := by
          rw [Nat.div_lt_iff_lt_mul (by norm_num : 0 < 10)]
          calc n < 10 ^ (f + 1) := hlt
          _ = 10 ^ f * 10 := by rw [pow_succ]
        obtain ⟨ha, hb, hc, hd, he⟩ := ih (n / 10) hdiv hf
        have hmod : n % 10 < 10 := Nat.mod_lt _ (by norm_num)
        simp only [natDigitsAux, if_neg h10]
        refine ⟨?_, ?_, ?_, ?_, ?_⟩
        · rw [List.all_append]
          simp [ha, digitChar_isDigit hmod]
        · rw [digitsToNat_append_digit, hb, digitChar_toNat hmod]
          omega
        · simp
        · rw [List.length_append]
          simp only [List.length_singleton]
          omega
        · rw [List.length_append]
          simp only [List.length_singleton]
          constructor
          · intro hlen
            have : (natDigitsAux f (n / 10)).length = 1 := by omega
            have h1 := hd.mp this
            omega
          · intro hn
            have : n / 10 < 10 := by omega
            have := hd.mpr this
            omega

theorem pad2_spec (n : Nat) :
    (pad2 n).all pyIsDigit = true ∧ digitsToNat (pad2 n) = n ∧
    2 ≤ (pad2 n).length ∧ ((pad2 n).length = 2 ↔ n < 100) := by
  have hpow : n < 10 ^ (n + 1) := by
    calc n < 10 ^ n := Nat.lt_pow_self (by norm_num) n
    _ ≤ 10 ^ (n + 1) := Nat.pow_le_pow_right (by norm_num) (by omega)
  obtain ⟨ha, hb, hc, hd, he⟩ := natDigitsAux_spec (n + 1) n hpow (by omega)
  unfold pad2 natDigits
  by_cases h10 : n < 10
  · rw [if_pos h10]
    have hlen1 : (natDigitsAux (n + 1) n).length = 1 := hd.mpr h10
    refine ⟨by simp [ha]; decide, ?_, by simp [hlen1], by simp [hlen1]; omega⟩
    rw [digitsToNat_cons_zero]
    exact hb
  · rw [if_neg h10]
    have hlen : (natDigitsAux (n + 1) n).length ≠ 1 := fun h => h10 (hd.mp h)
    exact ⟨ha, hb, by omega, by rw [he]; omega⟩

theorem startsWithStr_mem {needle t : Str}
    (h : startsWithStr needle t = true) : ∀ c ∈ needle, c ∈ t := by
  intro c hc
  unfold startsWithStr at h
  obtain ⟨rest, hrest⟩ := List.isPrefixOf_iff_prefix.mp h
  rw [← hrest]
  exact List.mem_append_left _ hc

theorem rfindFrom_some {needle s : Str} :
    ∀ {i j : Nat}, rfindFrom needle s i = some j →
      j ≤ i ∧ startsWithStr needle (s.drop j) = true := by
  intro i
  induction i with
  | zero =>
      intro j h
      unfold rfindFrom at h
      split at h
      · cases h
        rename_i hsw
        exact ⟨le_refl _, by simpa using hsw⟩
      · cases h
  | succ k ih =>
      intro j h
      unfold rfindFrom at h
      split at h
      · cases h
        rename_i hsw
        exact ⟨le_refl _, hsw⟩
      · obtain ⟨h1, h2⟩ := ih h
        exact ⟨le_trans h1 (by omega), h2⟩

theorem rfindFrom_max {needle s : Str} :
    ∀ {i j : Nat}, rfindFrom needle s i = some j →
      ∀ k ≤ i, startsWithStr needle (s.drop k) = true → k ≤ j := by
  intro i
  induction i with
  | zero =>
      intro j h k hk _
      omega
  | succ n ih =>
      intro j h k hk hsw
      unfold rfindFrom at h
      split at h
      · cases h
        exact hk
      · rename_i hneg
        rcases Nat.lt_or_ge k (n + 1) with hlt | hge
        · exact ih h k (by omega) hsw
        · exfalso
          have : k = n + 1 := by omega
          subst this
          rw [hsw] at hneg
          exact hneg rfl

theorem rfindFrom_none {needle s : Str} :
    ∀ {i : Nat}, rfindFrom needle s i = none →
      ∀ k ≤ i, startsWithStr needle (s.drop k) = false := by
  intro i
  induction i with
  | zero =>
      intro h k hk
      interval_cases k
      unfold rfindFrom at h
      split at h
      · cases h
      · rename_i hneg
        simpa using Bool.eq_false_iff.mpr (by simpa using hneg)
  | succ n ih =>
      intro h k hk
      unfold rfindFrom at h
      split at h
      · cases h
      · rename_i hneg
        rcases Nat.lt_or_ge k (n + 1) with hlt | hge
        · exact ih h k (by omega)
        · have : k = n + 1 := by omega
          subst this
          exact Bool.eq_false_iff.mpr hneg

theorem pyStrip_subset (s : Str) : pyStrip s ⊆ s := by
  unfold pyStrip pyRStrip pyLStrip
  intro c hc
  rw [List.mem_reverse] at hc
  have h1 := (List.dropWhile_sublist pyIsSpace).subset hc
  rw [List.mem_reverse] at h1
  exact (List.dropWhile_sublist pyIsSpace).subset h1

theorem noPunct_of_subset {s t : Str} (hsub : t ⊆ s)
    (h : noPunct s = true) : noPunct t = true := by
  rw [noPunct, List.all_eq_true] at *
  exact fun c hc => h c (hsub hc)

theorem noPunct_mem {s : Str} (h : noPunct s = true) {c : Char}
    (hc : c ∈ s) :
    ¬ (c = '.' ∨ c = '!' ∨ c = '?' ∨ c = ',' ∨ c = ';' ∨
       c = '-' ∨ c = '–' ∨ c = '—') := by
  rw [noPunct, List.all_eq_true] at h
  have := h c hc
  simpa using this

theorem rfind_breakChar_none {r : Str} (hnp : noPunct r = true)
    {bc : Str} (hbc : bc ∈ breakChars) (n : Nat) :
    rfindSub bc (r.take n) = none := by
  cases hfind : rfindSub bc (r.take n) with
  | none => rfl
  | some j =>
      exfalso
      unfold rfindSub at hfind
      have hsw := (rfindFrom_some hfind).2
      have hmem : ∀ c ∈ bc, c ∈ r := by
        intro c hc
        have h1 := startsWithStr_mem hsw c hc
        have h2 := List.mem_of_mem_drop h1
        exact List.mem_of_mem_take h2
      fin_cases hbc
      · exact noPunct_mem hnp (hmem '.' (by decide)) (by simp)
      · exact noPunct_mem hnp (hmem '!' (by decide)) (by simp)
      · exact noPunct_mem hnp (hmem '?' (by decide)) (by simp)
      · exact noPunct_mem hnp (hmem ',' (by decide)) (by simp)
      · exact noPunct_mem hnp (hmem ';' (by decide)) (by simp)
      · exact noPunct_mem hnp (hmem '-' (by decide)) (by simp)
      · exact noPunct_mem hnp (hmem '–' (by decide)) (by simp)
      · exact noPunct_mem hnp (hmem '—' (by decide)) (by simp)

theorem fbbpLoop_none {search : Str} {m : Nat} :
    ∀ {l : List Str}, (∀ bc ∈ l, rfindSub bc search = none) →
      fbbpLoop search m l = none := by
  intro l
  induction l with
  | nil => intro _; rfl
  | cons bc rest ih =>
      intro h
      unfold fbbpLoop
      rw [h bc (List.mem_cons_self _ _)]
      exact ih (fun x hx => h x (List.mem_cons_of_mem _ hx))

theorem fbbp_noPunct {r : Str} (hnp : noPunct r = true) :
    find_best_break_point r 45 = none := by
  unfold find_best_break_point
  split
  · rfl
  · exact fbbpLoop_none (fun bc hbc => rfind_breakChar_none hnp hbc 45)

theorem startsWith_singleton_iff {l : Str} {i : Nat} {c : Char} :
    startsWithStr [c] (l.drop i) = true ↔ l[i]? = some c := by
  unfold startsWithStr
  constructor
  · intro h
    obtain ⟨rest, hrest⟩ := List.isPrefixOf_iff_prefix.mp h
    have h0 : (l.drop i)[0]? = some c := by
      rw [← hrest]
      simp
    rw [List.getElem?_drop] at h0
    simpa using h0
  · intro h
    have h0 : (l.drop i)[0]? = some c := by
      rw [List.getElem?_drop]
      simpa using h
    cases hd : l.drop i with
    | nil => rw [hd] at h0; cases h0
    | cons x xs =>
        rw [hd] at h0
        simp only [List.getElem?_cons_zero, Option.some.injEq] at h0
        subst h0
        simp [List.isPrefixOf]

theorem chooseBreak_noPunct_spec {r : Str} (hnp : noPunct r = true)
    (hlen : 45 < r.length) :
    chooseBreak r 45 ≤ 45 ∧
    ((∃ i, 14 ≤ i ∧ i < 45 ∧ r[i]? = some ' ') →
      r[chooseBreak r 45 - 1]? = some ' ') ∧
    ((¬ ∃ i, 14 ≤ i ∧ i < 45 ∧ r[i]? = some ' ') →
      chooseBreak r 45 = 45) := by
  have htklen : (r.take 45).length = 45 := by
    rw [List.length_take]
    omega
  have hnotle : ¬ (r.length ≤ 45) := by omega
  cases hf : rfindSub [' '] (r.take 45) with
  | none =>
      have hfwb : find_word_boundary r 45 = none := by
        unfold find_word_boundary
        rw [if_neg hnotle, hf]
      have hcb : chooseBreak r 45 = 45 := by
        unfold chooseBreak
        rw [fbbp_noPunct hnp, hfwb]
      rw [hcb]
      refine ⟨le_refl _, ?_, fun _ => rfl⟩
      rintro ⟨i, hi14, hi45, hsp⟩
      exfalso
      have hsw : startsWithStr [' '] ((r.take 45).drop i) = true := by
        rw [startsWith_singleton_iff, List.getElem?_take_of_lt hi45]
        exact hsp
      have hdown := hf
      unfold rfindSub at hdown
      have hno := rfindFrom_none hdown i (by rw [htklen]; omega)
      rw [hsw] at hno
      cases hno
  | some ls =>
      have hdown := hf
      unfold rfindSub at hdown
      obtain ⟨hle, hsw⟩ := rfindFrom_some hdown
      have hls45 : ls < 45 := by
        have h0 := startsWith_singleton_iff.mp hsw
        have hlt : ls < (r.take 45).length := by
          by_contra hge
          rw [List.getElem?_eq_none (by omega)] at h0
          cases h0
        omega
      have hspace : r[ls]? = some ' ' := by
        have h0 := startsWith_singleton_iff.mp hsw
        rwa [List.getElem?_take_of_lt hls45] at h0
      by_cases hthr : 10 * ls > 3 * 45
      · have hfwb : find_word_boundary r 45 = some (ls + 1) := by
          unfold find_word_boundary
          rw [if_neg hnotle, hf]
          show (if 10 * ls > 3 * 45 then some (ls + 1) else none) = some (ls + 1)
          exact if_pos hthr
        have hcb : chooseBreak r 45 = ls + 1 := by
          unfold chooseBreak
          rw [fbbp_noPunct hnp, hfwb]
        rw [hcb]
        refine ⟨by omega, fun _ => ?_, fun hne => ?_⟩
        · simpa using hspace
        · exfalso
          exact hne ⟨ls, by omega, hls45, hspace⟩
      · have hfwb : find_word_boundary r 45 = none := by
          unfold find_word_boundary
          rw [if_neg hnotle, hf]
          show (if 10 * ls > 3 * 45 then some (ls + 1) else none) = none
          exact if_neg hthr
        have hcb : chooseBreak r 45 = 45 := by
          unfold chooseBreak
          rw [fbbp_noPunct hnp, hfwb]
        rw [hcb]
        refine ⟨le_refl _, ?_, fun _ => rfl⟩
        rintro ⟨i, hi14, hi45, hsp⟩
        exfalso
        have hsw2 : startsWithStr [' '] ((r.take 45).drop i) = true := by
          rw [startsWith_singleton_iff, List.getElem?_take_of_lt hi45]
          exact hsp
        have hmax := rfindFrom_max hdown i (by omega) hsw2
        omega

theorem breakTrace_mem :
    ∀ {fuel : Nat} {rem r : Str} {b : Nat},
      noPunct rem = true → (r, b) ∈ breakTraceAux 45 fuel rem →
      noPunct r = true ∧ 45 < r.length ∧ b = chooseBreak r 45 := by
  intro fuel
  induction fuel with
  | zero =>
      intro rem r b _ h
      cases h
  | succ f ih =>
      intro rem r b hnp h
      unfold breakTraceAux at h
      split at h
      · cases h
      · rename_i hlen
        simp only [] at h
        rcases List.mem_cons.mp h with heq | htail
        · injection heq with h1 h2
          subst h1
          subst h2
          exact ⟨hnp, by omega, rfl⟩
        · refine ih ?_ htail
          refine noPunct_of_subset ?_ hnp
          intro c hc
          exact List.mem_of_mem_drop (pyStrip_subset _ hc)

theorem insertLe_perm {α : Type} (le : α → α → Bool) (x : α) (l : List α) :
    List.Perm (insertLe le x l) (x :: l) := by
  induction l with
  | nil => exact List.Perm.refl _
  | cons y ys ih =>
      unfold insertLe
      split
      · exact List.Perm.trans (ih.cons y) (List.Perm.swap _ _ _)
      · exact List.Perm.refl _

theorem insertLe_sorted {α : Type} {le : α → α → Bool}
    (htr : ∀ a b c, le a b = true → le b c = true → le a c = true)
    (hto : ∀ a b, le a b = true ∨ le b a = true)
    (x : α) :
    ∀ {l : List α}, l.Pairwise (fun a b => le a b = true) →
      (insertLe le x l).Pairwise (fun a b => le a b = true) := by
  intro l
  induction l with
  | nil => intro _; simp [insertLe]
  | cons y ys ih =>
      intro h
      rw [List.pairwise_cons] at h
      unfold insertLe
      split
      · rename_i hyx
        rw [List.pairwise_cons]
        refine ⟨?_, ih h.2⟩
        intro z hz
        rcases List.mem_cons.mp ((insertLe_perm le x ys).mem_iff.mp hz) with rfl | hz2
        · exact hyx
        · exact h.1 z hz2
      · rename_i hyx
        have hxy : le x y = true := by
          rcases hto x y with h1 | h1
          · exact h1
          · exact absurd h1 hyx
        rw [List.pairwise_cons]
        refine ⟨?_, List.pairwise_cons.mpr ⟨h.1, h.2⟩⟩
        intro z hz
        rcases List.mem_cons.mp hz with rfl | hz2
        · exact hxy
        · exact htr x y z hxy (h.1 z hz2)

theorem sortLe_perm {α : Type} (le : α → α → Bool) (l : List α) :
    List.Perm (sortLe le l) l := by
  induction l with
  | nil => exact List.Perm.refl _
  | cons x xs ih =>
      have hstep : sortLe le (x :: xs) = insertLe le x (sortLe le xs) := rfl
      rw [hstep]
      exact (insertLe_perm le x (sortLe le xs)).trans (ih.cons x)

theorem sortLe_sorted {α : Type} {le : α → α → Bool}
    (htr : ∀ a b c, le a b = true → le b c = true → le a c = true)
    (hto : ∀ a b, le a b = true ∨ le b a = true)
    (l : List α) :
    (sortLe le l).Pairwise (fun a b => le a b = true) := by
  induction l with
  | nil => simp [sortLe]
  | cons x xs ih =>
      have hstep : sortLe le (x :: xs) = insertLe le x (sortLe le xs) := rfl
      rw [hstep]
      exact insertLe_sorted htr hto x ih

theorem strLe_total : ∀ a b : Str, strLe a b = true ∨ strLe b a = true := by
  intro a
  induction a with
  | nil => intro b; exact Or.inl rfl
  | cons c cs ih =>
      intro b
      cases b with
      | nil => exact Or.inr rfl
      | cons d ds =>
          by_cases h1 : c.toNat < d.toNat
          · left
            simp [strLe, h1]
          · by_cases h2 : d.toNat < c.toNat
            · right
              simp [strLe, h2]
            · rcases ih ds with h3 | h3
              · left
                simp [strLe, h1, h2, h3]
              · right
                simp [strLe, h1, h2, h3]

theorem strLe_trans :
    ∀ a b c : Str, strLe a b = true → strLe b c = true → strLe a c = true := by
  intro a
  induction a with
  | nil => intro b c _ _; rfl
  | cons x xs ih =>
      intro b c hab hbc
      cases b with
      | nil => simp [strLe] at hab
      | cons y ys =>
          cases c with
          | nil => simp [strLe] at hbc
          | cons z zs =>
              by_cases h1 : x.toNat < y.toNat
              · by_cases h2 : y.toNat < z.toNat
                · simp [strLe, show x.toNat < z.toNat by omega]
                · by_cases h3 : z.toNat < y.toNat
                  · simp [strLe, h2, h3] at hbc
                  · simp [strLe, show x.toNat < z.toNat by omega]
              · by_cases h4 : y.toNat < x.toNat
                · simp [strLe, h1, h4] at hab
                · have hab2 : strLe xs ys = true := by
                    simpa [strLe, h1, h4] using hab
                  by_cases h2 : y.toNat < z.toNat
                  · simp [strLe, show x.toNat < z.toNat by omega]
                  · by_cases h3 : z.toNat < y.toNat
                    · simp [strLe, h2, h3] at hbc
                    · have hbc2 : strLe ys zs = true := by
                        simpa [strLe, h2, h3] using hbc
                      have h5 : ¬ x.toNat < z.toNat := by omega
                      have h6 : ¬ z.toNat < x.toNat := by omega
                      simpa [strLe, h5, h6] using ih ys zs hab2 hbc2

theorem assFold_nodup :
    ∀ (lines : List Str) (acc : List (Str × Str × Str)), acc.Nodup →
      (lines.foldl assStep acc).Nodup := by
  intro lines
  induction lines with
  | nil => intro acc h; simpa using h
  | cons l rest ih =>
      intro acc h
      rw [List.foldl_cons]
      refine ih _ ?_
      unfold assStep
      split
      · exact h
      · split
        · exact h
        · rename_i e heq hne
          rw [List.nodup_append]
          exact ⟨h, List.nodup_singleton _, by
            intro a ha hb
            rcases List.mem_singleton.mp hb with rfl
            exact hne ha⟩

end Mkv

/-- C1 (counterexample): with two `[A]`-tagged non-forced English candidates
and two untagged forced English candidates, `deduplicate_subtitles` keeps
all four, i.e. two non-forced and two forced candidates of the same
language, contradicting "at most one non-forced and at most one forced
candidate per language". -/
theorem C1_counterexample :
    Mkv.deduplicate_subtitles
      [⟨1, "eng".data, false, false, "[A] x".data⟩,
       ⟨2, "eng".data, false, false, "[A] y".data⟩,
       ⟨3, "eng".data, true, false, []⟩,
       ⟨4, "eng".data, true, false, []⟩] =
      [⟨1, "eng".data, false, false, "[A] x".data⟩,
       ⟨2, "eng".data, false, false, "[A] y".data⟩,
       ⟨3, "eng".data, true, false, []⟩,
       ⟨4, "eng".data, true, false, []⟩] ∧
    ((Mkv.deduplicate_subtitles
      [⟨1, "eng".data, false, false, "[A] x".data⟩,
       ⟨2, "eng".data, false, false, "[A] y".data⟩,
       ⟨3, "eng".data, true, false, []⟩,
       ⟨4, "eng".data, true, false, []⟩]).filter
        (fun t => !t.forced)).length = 2 ∧
    ((Mkv.deduplicate_subtitles
      [⟨1, "eng".data, false, false, "[A] x".data⟩,
       ⟨2, "eng".data, false, false, "[A] y".data⟩,
       ⟨3, "eng".data, true, false, []⟩,
       ⟨4, "eng".data, true, false, []⟩]).filter
        (fun t => t.forced)).length = 2 := by
  decide

/-- C1 (amended): per language, the non-forced candidates surviving
deduplication all carry one and the same source tag (the selected bucket's
tag, or none) — but their number is not bounded by one; and every unsourced
forced candidate is unconditionally kept, so several forced candidates of
one language can survive. -/
theorem C1_dedup_language_group_shape :
    (∀ (tracks : List Mkv.Track) (t1 t2 : Mkv.Track),
        t1 ∈ Mkv.deduplicate_subtitles tracks →
        t2 ∈ Mkv.deduplicate_subtitles tracks →
        t1.lang = t2.lang → t1.forced = false → t2.forced = false →
        Mkv.extract_source t1.trackName = Mkv.extract_source t2.trackName) ∧
    (∀ (tracks : List Mkv.Track) (t : Mkv.Track),
        t ∈ tracks → t.forced = true →
        Mkv.extract_source t.trackName = none →
        t ∈ Mkv.deduplicate_subtitles tracks) := by
  constructor
  · intro tracks t1 t2 h1 h2 hlang hf1 hf2
    obtain ⟨kg1, hkg1, hd1⟩ := Mkv.mem_deduplicate h1
    obtain ⟨kg2, hkg2, hd2⟩ := Mkv.mem_deduplicate h2
    obtain ⟨k1, g1⟩ := kg1
    obtain ⟨k2, g2⟩ := kg2
    have hinv := Mkv.buildLangGroups_inv tracks
    have hl1 : t1.lang = k1 := (hinv.1 _ hkg1 t1 (Mkv.dedupGroup_sub t1 hd1)).1
    have hl2 : t2.lang = k2 := (hinv.1 _ hkg2 t2 (Mkv.dedupGroup_sub t2 hd2)).1
    have hkeq : k1 = k2 := by rw [← hl1, ← hl2, hlang]
    subst hkeq
    have hgeq : g1 = g2 := Mkv.assoc_eq_of_nodup hinv.2 hkg1 hkg2
    subst hgeq
    by_cases hlen : g1.length ≤ 1
    · rw [Mkv.dedupGroup_of_small hlen] at hd1 hd2
      cases g1 with
      | nil => cases hd1
      | cons x xs =>
          cases xs with
          | nil =>
              rcases List.mem_singleton.mp hd1 with rfl
              rcases List.mem_singleton.mp hd2 with rfl
              rfl
          | cons y ys => simp at hlen
    · rcases Mkv.dedupGroup_nonforced_tag hlen hd1 hf1 with
        ⟨s1, hs1, hcond1, htag1⟩ | ⟨htag1, hnc1⟩ <;>
      rcases Mkv.dedupGroup_nonforced_tag hlen hd2 hf2 with
        ⟨s2, hs2, hcond2, htag2⟩ | ⟨htag2, hnc2⟩
      · rw [htag1, htag2]
        rw [hs1] at hs2
        injection hs2 with hs
        rw [hs]
      · exact absurd hcond1 hnc2
      · exact absurd hcond2 hnc1
      · rw [htag1, htag2]
  · intro tracks t ht hf hu
    obtain ⟨kg, hkg, hmem⟩ := Mkv.buildLangGroups_complete tracks t ht
    unfold Mkv.deduplicate_subtitles
    rw [if_neg (by intro h; rw [h] at ht; cases ht)]
    refine List.mem_flatten.mpr
      ⟨Mkv.dedupGroup kg.2, List.mem_map.mpr ⟨kg, hkg, rfl⟩, ?_⟩
    exact Mkv.dedupGroup_keeps_unsourced_forced hmem hf hu

/-- C1 (witness): concrete instantiations of both conjuncts of the amended
claim. -/
theorem C1_dedup_language_group_shape_witness :
    ((⟨1, "eng".data, false, false, "[A] x".data⟩ : Mkv.Track) ∈
        Mkv.deduplicate_subtitles
          [⟨1, "eng".data, false, false, "[A] x".data⟩,
           ⟨2, "eng".data, false, false, "[A] y".data⟩] ∧
      (⟨2, "eng".data, false, false, "[A] y".data⟩ : Mkv.Track) ∈
        Mkv.deduplicate_subtitles
          [⟨1, "eng".data, false, false, "[A] x".data⟩,
           ⟨2, "eng".data, false, false, "[A] y".data⟩] ∧
      Mkv.extract_source ("[A] x".data) = Mkv.extract_source ("[A] y".data)) ∧
    (⟨7, "ger".data, true, false, []⟩ : Mkv.Track) ∈
      Mkv.deduplicate_subtitles [⟨7, "ger".data, true, false, []⟩] :=
  ⟨⟨by decide, by decide,
    C1_dedup_language_group_shape.1
      [⟨1, "eng".data, false, false, "[A] x".data⟩,
       ⟨2, "eng".data, false, false, "[A] y".data⟩]
      ⟨1, "eng".data, false, false, "[A] x".data⟩
      ⟨2, "eng".data, false, false, "[A] y".data⟩
      (by decide) (by decide) (by decide) (by decide) (by decide)⟩,
   C1_dedup_language_group_shape.2 [⟨7, "ger".data, true, false, []⟩]
     ⟨7, "ger".data, true, false, []⟩ (by decide) (by decide) (by decide)⟩

/-- C2 (counterexample): a language group of two untagged non-forced
candidates: the code keeps both, not only the first. -/
theorem C2_counterexample :
    Mkv.deduplicate_subtitles
      [⟨1, "eng".data, false, false, []⟩, ⟨2, "eng".data, false, false, []⟩] =
      [⟨1, "eng".data, false, false, []⟩, ⟨2, "eng".data, false, false, []⟩] ∧
    (⟨2, "eng".data, false, false, []⟩ : Mkv.Track) ∈
      Mkv.deduplicate_subtitles
        [⟨1, "eng".data, false, false, []⟩,
         ⟨2, "eng".data, false, false, []⟩] ∧
    (⟨1, "eng".data, false, false, []⟩ : Mkv.Track) ≠
      ⟨2, "eng".data, false, false, []⟩ := by
  decide

/-- C2 (amended): for a language group of two or more candidates none of
which carries a bracketed source tag, `deduplicate_subtitles` keeps every
candidate of the group: all non-forced ones (in input order) followed by
all forced ones (in input order). -/
theorem C2_unsourced_group_keeps_all (g : List Mkv.Track) (L : Mkv.Str)
    (hlen2 : 2 ≤ g.length) (hlang : ∀ t ∈ g, t.lang = L)
    (huns : ∀ t ∈ g, Mkv.extract_source t.trackName = none) :
    Mkv.deduplicate_subtitles g =
      g.filter (fun t => !t.forced) ++ g.filter (fun t => t.forced) := by
  have hne : g ≠ [] := by
    intro h
    rw [h] at hlen2
    simp at hlen2
  unfold Mkv.deduplicate_subtitles
  rw [if_neg hne, Mkv.buildLangGroups_const g L hne hlang]
  show Mkv.dedupGroup g ++ [] = _
  rw [List.append_nil]
  have hlen : ¬ g.length ≤ 1 := by omega
  have hall : ∀ t ∈ Mkv.groupAll g, Mkv.extract_source t.trackName = none :=
    fun t ht => huns t (Mkv.mem_of_mem_groupAll ht)
  have hbs : Mkv.buildSources (Mkv.groupAll g) =
      ([], ⟨Mkv.groupNormal g, Mkv.groupForced g⟩) := by
    unfold Mkv.buildSources
    rw [Mkv.foldBuild_all_unsourced _ _ hall, Mkv.foldAddUnsourced]
    rw [show (([], ⟨[], []⟩) : List (Mkv.Str × Mkv.Bucket) × Mkv.Bucket).2 =
      (⟨[], []⟩ : Mkv.Bucket) from rfl]
    simp only [List.nil_append]
    rw [Mkv.groupAll_filter_normal, Mkv.groupAll_filter_forced]
  have hsrc : Mkv.groupSources g = [] := by
    unfold Mkv.groupSources
    rw [hbs]
  have huns2 : Mkv.groupUnsourced g = ⟨Mkv.groupNormal g, Mkv.groupForced g⟩ := by
    unfold Mkv.groupUnsourced
    rw [hbs]
  have hbest : Mkv.groupBest g = none := by
    unfold Mkv.groupBest Mkv.bestSourceFold
    rw [hsrc]
    rfl
  rw [Mkv.dedupGroup_eq_parts hlen, hsrc, hbest, huns2]
  show ((if Mkv.optStrTruthy none ∧ Mkv.keyMem [] none then _ else []) ++ _ ++ _ : List Mkv.Track) = _
  rw [if_neg (by simp [Mkv.optStrTruthy])]
  rw [List.nil_append]
  by_cases hgn : Mkv.groupNormal g = []
  · rw [if_neg (by simp [hgn])]
    show ([] : List Mkv.Track) ++ Mkv.groupForced g = _
    rw [List.nil_append]
    unfold Mkv.groupNormal at hgn
    rw [hgn, List.nil_append]
    rfl
  · rw [if_pos ⟨hgn, by simp [Mkv.optStrTruthy]⟩]
    rfl

/-- C2 (witness): the amended claim applied to a concrete two-candidate
untagged English group (one normal, one forced, forced listed first). -/
theorem C2_unsourced_group_keeps_all_witness :
    Mkv.deduplicate_subtitles
      [⟨1, "eng".data, true, false, []⟩, ⟨2, "eng".data, false, false, []⟩] =
      [⟨2, "eng".data, false, false, []⟩, ⟨1, "eng".data, true, false, []⟩] := by
  have h := C2_unsourced_group_keeps_all
    [⟨1, "eng".data, true, false, []⟩, ⟨2, "eng".data, false, false, []⟩]
    ("eng".data) (by decide) (by decide) (by decide)
  rw [h]
  decide

/-- C4: sourced buckets score 100 (normal and forced member), 50
(normal-only), 25 (forced-only); the first bucket with the strictly highest
score is selected (elements listed before it score strictly less, nothing
scores more) and all its members are kept; and on the spec's example —
two `[GroupA]` English candidates (normal + forced) plus one untagged
English normal candidate — exactly the two `[GroupA]` candidates survive. -/
theorem C4_bucket_scoring_selection :
    (∀ b : Mkv.Bucket,
        Mkv.scoreBucket b =
          if b.normal ≠ [] ∧ b.forced ≠ [] then 100
          else if b.normal ≠ [] then 50
          else if b.forced ≠ [] then 25
          else 0) ∧
    (∀ (g : List Mkv.Track) (s : Mkv.Str), 2 ≤ g.length →
        Mkv.groupBest g = some s →
        ∃ pre b post,
          Mkv.groupSources g = pre ++ (s, b) :: post ∧
          Mkv.getBucketD (Mkv.groupSources g) (some s) = b ∧
          (∀ x ∈ pre, Mkv.scoreBucket x.2 < Mkv.scoreBucket b) ∧
          (∀ x ∈ Mkv.groupSources g,
            Mkv.scoreBucket x.2 ≤ Mkv.scoreBucket b) ∧
          (∀ t : Mkv.Track, t ∈ b.normal ∨ t ∈ b.forced →
            t ∈ Mkv.dedupGroup g)) ∧
    Mkv.deduplicate_subtitles
      [⟨1, "eng".data, false, false, "English [GroupA]".data⟩,
       ⟨2, "eng".data, true, false, "English [GroupA]".data⟩,
       ⟨3, "eng".data, false, false, []⟩] =
      [⟨1, "eng".data, false, false, "English [GroupA]".data⟩,
       ⟨2, "eng".data, true, false, "English [GroupA]".data⟩] := by
  refine ⟨?_, ?_, by decide⟩
  · intro b
    unfold Mkv.scoreBucket
    simp only [List.length_pos]
  · intro g s hlen2 hbest
    have hbest' : (Mkv.bestSourceFold (Mkv.groupSources g)).1 = some s := hbest
    obtain ⟨pre, b, post, hsplit, hpre, hall⟩ := Mkv.bestSourceFold_spec hbest'
    have hnd : ((Mkv.groupSources g).map Prod.fst).Nodup :=
      (Mkv.buildSources_inv (Mkv.groupAll g)).2.2
    have hget := Mkv.getBucketD_of_decomp hsplit hnd
    have hmem_sb : (s, b) ∈ Mkv.groupSources g := by
      rw [hsplit]
      exact List.mem_append_right _ (List.mem_cons_self _ _)
    have hsne : s ≠ [] :=
      ((Mkv.buildSources_inv (Mkv.groupAll g)).1 _ hmem_sb).2
    refine ⟨pre, b, post, hsplit, hget, hpre, hall, ?_⟩
    intro t htb
    have hlen : ¬ g.length ≤ 1 := by omega
    rw [Mkv.dedupGroup_eq_parts hlen]
    refine List.mem_append_left _ (List.mem_append_left _ ?_)
    have hcond : Mkv.optStrTruthy (Mkv.groupBest g) ∧
        Mkv.keyMem (Mkv.groupSources g) (Mkv.groupBest g) := by
      constructor
      · rw [hbest]
        simp [Mkv.optStrTruthy, hsne]
      · rw [hbest]
        show Mkv.keyMem _ (some s) = true
        unfold Mkv.keyMem
        rw [List.any_eq_true]
        exact ⟨(s, b), hmem_sb, by simp⟩
    rw [if_pos hcond, hbest, hget]
    rcases htb with h | h
    · exact List.mem_append_left _ h
    · exact List.mem_append_right _ h

/-- C4 (witness): the selection part instantiated on the example group. -/
theorem C4_bucket_scoring_selection_witness :
    2 ≤ ([⟨1, "eng".data, false, false, "English [GroupA]".data⟩,
          ⟨2, "eng".data, true, false, "English [GroupA]".data⟩,
          ⟨3, "eng".data, false, false, []⟩] : List Mkv.Track).length ∧
    Mkv.groupBest
      [⟨1, "eng".data, false, false, "English [GroupA]".data⟩,
       ⟨2, "eng".data, true, false, "English [GroupA]".data⟩,
       ⟨3, "eng".data, false, false, []⟩] = some ("GroupA".data) ∧
    (∃ pre b post,
      Mkv.groupSources
        [⟨1, "eng".data, false, false, "English [GroupA]".data⟩,
         ⟨2, "eng".data, true, false, "English [GroupA]".data⟩,
         ⟨3, "eng".data, false, false, []⟩] =
          pre ++ (("GroupA".data), b) :: post ∧
      Mkv.getBucketD
        (Mkv.groupSources
          [⟨1, "eng".data, false, false, "English [GroupA]".data⟩,
           ⟨2, "eng".data, true, false, "English [GroupA]".data⟩,
           ⟨3, "eng".data, false, false, []⟩]) (some ("GroupA".data)) = b ∧
      (∀ x ∈ pre, Mkv.scoreBucket x.2 < Mkv.scoreBucket b) ∧
      (∀ x ∈ Mkv.groupSources
          [⟨1, "eng".data, false, false, "English [GroupA]".data⟩,
           ⟨2, "eng".data, true, false, "English [GroupA]".data⟩,
           ⟨3, "eng".data, false, false, []⟩],
        Mkv.scoreBucket x.2 ≤ Mkv.scoreBucket b) ∧
      (∀ t : Mkv.Track, t ∈ b.normal ∨ t ∈ b.forced →
        t ∈ Mkv.dedupGroup
          [⟨1, "eng".data, false, false, "English [GroupA]".data⟩,
           ⟨2, "eng".data, true, false, "English [GroupA]".data⟩,
           ⟨3, "eng".data, false, false, []⟩])) :=
  ⟨by decide, by decide,
    C4_bucket_scoring_selection.2.1
      [⟨1, "eng".data, false, false, "English [GroupA]".data⟩,
       ⟨2, "eng".data, true, false, "English [GroupA]".data⟩,
       ⟨3, "eng".data, false, false, []⟩]
      ("GroupA".data) (by decide) (by decide)⟩

/-- C3 (code evidence): a forced Japanese subtitle track with
originalSubtitleLang = "jpn" and "jpn" in neither allowed-language set is
collected as a candidate by `filter_and_remux` and survives deduplication
as the only member of its group, yet
`process_subtitles_systematically`'s filter removes it, so it receives no
Keep decision: the pipeline's kept list is empty. -/
theorem C3_forced_original_dropped :
    Mkv.collectSubtitle ["eng".data] ["eng".data] ("jpn".data)
      ⟨2, "jpn".data, true, false, []⟩ = true ∧
    Mkv.deduplicate_subtitles [⟨2, "jpn".data, true, false, []⟩] =
      [⟨2, "jpn".data, true, false, []⟩] ∧
    Mkv.subtitleAllowed ["eng".data] ["eng".data]
      ⟨2, "jpn".data, true, false, []⟩ = false ∧
    Mkv.subtitlePipelineKept ["eng".data] ["eng".data] ("jpn".data)
      [⟨2, "jpn".data, true, false, []⟩] = [] := by
  decide

/-- C5: the spec's worked example of `extract_series_info`. -/
theorem C5_extract_series_info_example :
    Mkv.extract_series_info
      ("Show.Name.S01E02.Episode.Title.1080p.WEB-DL.x264.mkv".data) =
      some ("Show Name".data, "S01E02".data, 1, 2,
        some ("Episode Title".data)) := by
  decide

/-- C6 (counterexample): for a three-digit season number the tag component
has three digits, not two: `"a.S123E4.mkv"` yields the tag `"S123E04"`,
whose season component `"123"` has length 3. -/
theorem C6_counterexample :
    Mkv.extract_series_info ("a.S123E4.mkv".data) =
      some ("a".data, "S123E04".data, 123, 4, none) ∧
    (("S123E04".data.drop 1).takeWhile (fun c => Mkv.pyIsDigit c)).length = 3 := by
  decide

/-- C6 (amended): whenever `extract_series_info` finds a season/episode
marker, the tag is `S<season digits>E<episode digits>` with each component
zero-padded to a MINIMUM of two digits: it parses back to the extracted
number, has at least two digits, and has exactly two digits iff that
number is below 100. -/
theorem C6_tag_padding :
    ∀ (s st tag : Mkv.Str) (sn en : Nat) (et : Option Mkv.Str),
      Mkv.extract_series_info s = some (st, tag, sn, en, et) →
      ∃ ds de : Mkv.Str,
        tag = 'S' :: (ds ++ 'E' :: de) ∧
        ds.all Mkv.pyIsDigit = true ∧ de.all Mkv.pyIsDigit = true ∧
        Mkv.digitsToNat ds = sn ∧ Mkv.digitsToNat de = en ∧
        2 ≤ ds.length ∧ 2 ≤ de.length ∧
        (ds.length = 2 ↔ sn < 100) ∧ (de.length = 2 ↔ en < 100) := by
  intro s st tag sn en et h
  unfold Mkv.extract_series_info at h
  simp only [] at h
  split at h
  · cases h
  · rename_i i d1 d2 len heq
    simp only [Option.some.injEq, Prod.mk.injEq] at h
    obtain ⟨-, h2, h3, h4, -⟩ := h
    subst h3
    subst h4
    obtain ⟨ha1, hb1, hc1, hd1⟩ := Mkv.pad2_spec (Mkv.digitsToNat d1)
    obtain ⟨ha2, hb2, hc2, hd2⟩ := Mkv.pad2_spec (Mkv.digitsToNat d2)
    exact ⟨Mkv.pad2 (Mkv.digitsToNat d1), Mkv.pad2 (Mkv.digitsToNat d2),
      h2.symm, ha1, ha2, hb1, hb2, hc1, hc2, hd1, hd2⟩

/-- C6 (witness): the amended claim applied to `"x.S1E2.mkv"`. -/
theorem C6_tag_padding_witness :
    Mkv.extract_series_info ("x.S1E2.mkv".data) =
      some ("x".data, "S01E02".data, 1, 2, none) ∧
    ∃ ds de : Mkv.Str,
      ("S01E02".data : Mkv.Str) = 'S' :: (ds ++ 'E' :: de) ∧
      ds.all Mkv.pyIsDigit = true ∧ de.all Mkv.pyIsDigit = true ∧
      Mkv.digitsToNat ds = 1 ∧ Mkv.digitsToNat de = 2 ∧
      2 ≤ ds.length ∧ 2 ≤ de.length ∧
      (ds.length = 2 ↔ 1 < 100) ∧ (de.length = 2 ↔ 2 < 100) :=
  ⟨by decide,
    C6_tag_padding ("x.S1E2.mkv".data) ("x".data) ("S01E02".data) 1 2 none
      (by decide)⟩

/-- C7 (counterexample): the line `"Hi "` followed by fifty `a`s is longer
than 45, has no punctuation and contains a space, yet the single inserted
break is a hard cut at position 45, between two letters of the long word:
the space at index 2 lies below the don't-break-too-early threshold. -/
theorem C7_counterexample :
    Mkv.lineBreakTrace ("Hi ".data ++ List.replicate 50 'a') 45 =
      [("Hi ".data ++ List.replicate 50 'a', 45)] ∧
    Mkv.noPunct ("Hi ".data ++ List.replicate 50 'a') = true ∧
    ' ' ∈ ("Hi ".data ++ List.replicate 50 'a') ∧
    ("Hi ".data ++ List.replicate 50 'a')[44]? = some 'a' ∧
    ("Hi ".data ++ List.replicate 50 'a')[45]? = some 'a' ∧
    Mkv.break_long_subtitle_lines ("Hi ".data ++ List.replicate 50 'a') 45 =
      ("Hi ".data ++ List.replicate 42 'a') ++ '\n' :: List.replicate 8 'a' := by
  decide

/-- C7 (amended): for every line without punctuation, at every iteration
of the wrapping loop the chosen break is at most 45; it falls immediately
after a space whenever the remaining text has a space at index 14..44
(the code's `> max_length * 0.3` threshold), and otherwise it is a hard
cut at exactly 45, which can split a word even though an earlier space
exists. -/
theorem C7_wrap_break_positions :
    ∀ (line r : Mkv.Str) (b : Nat),
      Mkv.noPunct line = true →
      (r, b) ∈ Mkv.lineBreakTrace line 45 →
      45 < r.length ∧ b ≤ 45 ∧
      ((∃ i, 14 ≤ i ∧ i < 45 ∧ r[i]? = some ' ') →
        r[b - 1]? = some ' ') ∧
      ((¬ ∃ i, 14 ≤ i ∧ i < 45 ∧ r[i]? = some ' ') → b = 45) := by
  intro line r b hnp hmem
  have hnps : Mkv.noPunct (Mkv.pyStrip line) = true :=
    Mkv.noPunct_of_subset (Mkv.pyStrip_subset line) hnp
  obtain ⟨h1, h2, h3⟩ := Mkv.breakTrace_mem hnps hmem
  subst h3
  obtain ⟨c1, c2, c3⟩ := Mkv.chooseBreak_noPunct_spec h1 h2
  exact ⟨h2, c1, c2, c3⟩

/-- C7 (witness): the amended claim applied to a concrete 55-character
punctuation-free line, whose one break lands just after the space at
index 43. -/
theorem C7_wrap_break_positions_witness :
    Mkv.noPunct
      ("The quick brown fox jumps over the lazy dog today again".data) = true ∧
    (("The quick brown fox jumps over the lazy dog today again".data, 44) ∈
      Mkv.lineBreakTrace
        ("The quick brown fox jumps over the lazy dog today again".data) 45) ∧
    (45 < ("The quick brown fox jumps over the lazy dog today again".data :
        Mkv.Str).length ∧ 44 ≤ 45 ∧
      ((∃ i, 14 ≤ i ∧ i < 45 ∧
          ("The quick brown fox jumps over the lazy dog today again".data :
            Mkv.Str)[i]? = some ' ') →
        ("The quick brown fox jumps over the lazy dog today again".data :
          Mkv.Str)[44 - 1]? = some ' ') ∧
      ((¬ ∃ i, 14 ≤ i ∧ i < 45 ∧
          ("The quick brown fox jumps over the lazy dog today again".data :
            Mkv.Str)[i]? = some ' ') → 44 = 45)) :=
  ⟨by decide, by decide,
    C7_wrap_break_positions
      ("The quick brown fox jumps over the lazy dog today again".data)
      ("The quick brown fox jumps over the lazy dog today again".data)
      44 (by decide) (by decide)⟩

/-- C8 (counterexample): a TTML input with one 100-hour paragraph and two
identical 25-hour paragraphs: the emitted sequence keeps the duplicate
(start, end, text) triple twice, and the lexicographic sort on the
rendered start string puts the 100-hour entry (360000000 ms) before the
25-hour entries (90000000 ms), so the output is neither duplicate-free
nor ascending by start time. -/
theorem C8_counterexample :
    Mkv.convert_ttml_to_srt_entries
      ("<p begin=\"360000s\" end=\"360000s\">A B</p><p begin=\"90000s\" end=\"90000s\">C D</p><p begin=\"90000s\" end=\"90000s\">C D</p>".data) =
      [("100:00:00,000".data, "100:00:00,000".data, "A B".data),
       ("25:00:00,000".data, "25:00:00,000".data, "C D".data),
       ("25:00:00,000".data, "25:00:00,000".data, "C D".data)] ∧
    Mkv.convert_ttml_time_to_srt ("360000s".data) = "100:00:00,000".data ∧
    Mkv.convert_ttml_time_to_srt ("90000s".data) = "25:00:00,000".data ∧
    Mkv.strLe ("100:00:00,000".data) ("25:00:00,000".data) = true := by
  decide

/-- C8 (amended): the ASS converter emits entries with no duplicate
(start, end, text) triple, sorted by the rendered start-time string
(which coincides with start-time order only while hours stay below 100
and, for ASS, centiseconds below 100); the TTML converter sorts by the
same string key but performs no deduplication. -/
theorem C8_entries_sorted :
    (∀ content : Mkv.Str,
      (Mkv.convert_ass_to_srt_entries content).Nodup ∧
      (Mkv.convert_ass_to_srt_entries content).Pairwise
        (fun a b => Mkv.strLe a.1 b.1 = true)) ∧
    (∀ content : Mkv.Str,
      (Mkv.convert_ttml_to_srt_entries content).Pairwise
        (fun a b => Mkv.strLe a.1 b.1 = true)) := by
  have htr : ∀ a b c : Mkv.Str × Mkv.Str × Mkv.Str,
      Mkv.strLe a.1 b.1 = true → Mkv.strLe b.1 c.1 = true →
      Mkv.strLe a.1 c.1 = true :=
    fun a b c h1 h2 => Mkv.strLe_trans a.1 b.1 c.1 h1 h2
  have hto : ∀ a b : Mkv.Str × Mkv.Str × Mkv.Str,
      Mkv.strLe a.1 b.1 = true ∨ Mkv.strLe b.1 a.1 = true :=
    fun a b => Mkv.strLe_total a.1 b.1
  constructor
  · intro content
    constructor
    · exact (Mkv.sortLe_perm _ _).nodup_iff.mpr
        (Mkv.assFold_nodup _ [] List.nodup_nil)
    · exact Mkv.sortLe_sorted htr hto _
  · intro content
    exact Mkv.sortLe_sorted htr hto _

/-- C9 (counterexample): content that begins with the PGS magic bytes
`PG` but also satisfies the loose SRT heuristic (`-->`, a comma, and a
digits-only line) is routed to the SRT rename branch and reported as a
success, so a conversion attempt on bitmap-magic content does not always
fail. -/
theorem C9_counterexample :
    List.isPrefixOf [80, 71]
      (Mkv.firstBytes ("PG\n1\n00:00:00,000 --> 00:00:01,000\nHi\n".data)) =
      true ∧
    Mkv.is_srt_format ("PG\n1\n00:00:00,000 --> 00:00:01,000\nHi\n".data) =
      true ∧
    Mkv.classifyExtracted
      ("PG\n1\n00:00:00,000 --> 00:00:01,000\nHi\n".data) =
      Mkv.SubtitleRoute.srtPassThrough ∧
    Mkv.routeFails Mkv.SubtitleRoute.srtPassThrough = false := by
  decide

/-- C9 (amended): whenever the content does NOT pass the `is_srt_format`
heuristic, bitmap-magic content always takes the failing bitmap branch:
the reason names the bitmap/image nature and no converter (hence no
entry production) is invoked. -/
theorem C9_bitmap_detection :
    ∀ content : Mkv.Str,
      Mkv.is_srt_format content = false →
      List.isPrefixOf [80, 71] (Mkv.firstBytes content) = true →
      Mkv.classifyExtracted content = Mkv.SubtitleRoute.bitmapFail ∧
      Mkv.routeFails (Mkv.classifyExtracted content) = true ∧
      Mkv.failMsg Mkv.SubtitleRoute.bitmapFail =
        "PGS subtitles are bitmap images, not text".data ∧
      Mkv.routeInvokesConverter (Mkv.classifyExtracted content) = false := by
  intro content hsrt hpfx
  have hmagic : Mkv.pgMagicCheck (Mkv.firstBytes content) = true := by
    unfold Mkv.pgMagicCheck
    rw [hpfx]
    rfl
  have hroute : Mkv.classifyExtracted content = Mkv.SubtitleRoute.bitmapFail := by
    unfold Mkv.classifyExtracted
    rw [if_neg (by rw [hsrt]; exact Bool.false_ne_true), if_pos hmagic]
  refine ⟨hroute, ?_, by decide, ?_⟩
  · rw [hroute]
    rfl
  · rw [hroute]
    rfl

/-- C9 (witness): the amended claim applied to PG-magic content that the
SRT heuristic rejects. -/
theorem C9_bitmap_detection_witness :
    Mkv.is_srt_format ("PGabc".data) = false ∧
    List.isPrefixOf [80, 71] (Mkv.firstBytes ("PGabc".data)) = true ∧
    (Mkv.classifyExtracted ("PGabc".data) = Mkv.SubtitleRoute.bitmapFail ∧
      Mkv.routeFails (Mkv.classifyExtracted ("PGabc".data)) = true ∧
      Mkv.failMsg Mkv.SubtitleRoute.bitmapFail =
        "PGS subtitles are bitmap images, not text".data ∧
      Mkv.routeInvokesConverter (Mkv.classifyExtracted ("PGabc".data)) = false) :=
  ⟨by decide, by decide,
    C9_bitmap_detection ("PGabc".data) (by decide) (by decide)⟩

/-- C10: both time converters are total functions into strings (they are
plain Lean functions; every Python exception path is an explicit `none`
caught by the `getD` fallback), and every input they cannot parse —
wrong number of colon-separated fields, or a non-numeric component —
silently yields the zero timestamp `"00:00:00,000"`. -/
theorem C10_time_parser_fallback :
    (∀ s : Mkv.Str, (Mkv.splitChar ':' s).length ≠ 3 →
        Mkv.convert_ass_time_to_srt s = Mkv.zeroTimestamp) ∧
    (∀ (s p0 p1 p2 : Mkv.Str), Mkv.splitChar ':' s = [p0, p1, p2] →
        (Mkv.pyInt p0 = none ∨ Mkv.pyInt p1 = none ∨
          Mkv.pyInt ((((Mkv.splitChar '.' p2))[0]?).getD []) = none ∨
          (∃ s0 s1 r, Mkv.splitChar '.' p2 = s0 :: s1 :: r ∧
            Mkv.pyInt s1 = none)) →
        Mkv.convert_ass_time_to_srt s = Mkv.zeroTimestamp) ∧
    (∀ s : Mkv.Str, Mkv.endsWithStr ['s'] s = false →
        Mkv.containsSub [':'] s = false →
        Mkv.convert_ttml_time_to_srt s = Mkv.zeroTimestamp) ∧
    (∀ s : Mkv.Str, Mkv.endsWithStr ['s'] s = true →
        (if Mkv.endsWithStr ("ms".data) s then
            Mkv.parseDecFloat (s.take (s.length - 2))
          else Mkv.parseDecFloat (s.take (s.length - 1))) = none →
        Mkv.convert_ttml_time_to_srt s = Mkv.zeroTimestamp) ∧
    (∀ s : Mkv.Str, Mkv.endsWithStr ['s'] s = false →
        (Mkv.splitChar ':' s).length < 3 →
        Mkv.convert_ttml_time_to_srt s = Mkv.zeroTimestamp) ∧
    (∀ (s p0 p1 p2 : Mkv.Str) (r : List Mkv.Str),
        Mkv.endsWithStr ['s'] s = false →
        Mkv.splitChar ':' s = p0 :: p1 :: p2 :: r →
        (Mkv.pyInt p0 = none ∨ Mkv.pyInt p1 = none ∨
          (Mkv.containsSub ['.'] p2 = false ∧ Mkv.pyInt p2 = none) ∨
          (Mkv.containsSub ['.'] p2 = true ∧
            (Mkv.pyInt (((Mkv.splitChar '.' p2)[0]?).getD []) = none ∨
             Mkv.pyInt
               (Mkv.ljustZero3
                 ((((Mkv.splitChar '.' p2)[1]?).getD []).take 3)) = none))) →
        Mkv.convert_ttml_time_to_srt s = Mkv.zeroTimestamp) := by
  refine ⟨?_, ?_, ?_, ?_, ?_, ?_⟩
  · intro s h
    unfold Mkv.convert_ass_time_to_srt Mkv.convert_ass_time_core
    simp only []
    rw [if_neg h]
    rfl
  · intro s p0 p1 p2 hp hbad
    unfold Mkv.convert_ass_time_to_srt Mkv.convert_ass_time_core
    simp only []
    rw [hp]
    rw [if_pos (show ([p0, p1, p2] : List Mkv.Str).length = 3 from rfl)]
    simp only [List.getElem?_cons_zero, List.getElem?_cons_succ,
      Option.getD_some]
    rcases hbad with h | h | h | ⟨s0, s1, r, heq, h⟩
    · rw [h]
      rfl
    · cases h0 : Mkv.pyInt p0 with
      | none => rfl
      | some hours =>
          rw [Option.some_bind, h]
          rfl
    · cases h0 : Mkv.pyInt p0 with
      | none => rfl
      | some hours =>
          rw [Option.some_bind]
          cases h1 : Mkv.pyInt p1 with
          | none => rfl
          | some minutes =>
              rw [Option.some_bind, h]
              rfl
    · cases h0 : Mkv.pyInt p0 with
      | none => rfl
      | some hours =>
          rw [Option.some_bind]
          cases h1 : Mkv.pyInt p1 with
          | none => rfl
          | some minutes =>
              rw [Option.some_bind, heq]
              simp only [List.getElem?_cons_zero, List.getElem?_cons_succ,
                Option.getD_some]
              cases hs0 : Mkv.pyInt s0 with
              | none => rfl
              | some seconds =>
                  rw [Option.some_bind,
                    if_pos (show 1 < (s0 :: s1 :: r).length by
                      simp only [List.length_cons]; omega),
                    h]
                  rfl
  · intro s h1 h2
    unfold Mkv.convert_ttml_time_to_srt Mkv.convert_ttml_time_core
    rw [if_neg (by rw [h1]; exact Bool.false_ne_true),
      if_neg (by rw [h2]; exact Bool.false_ne_true)]
    rfl
  · intro s h1 hnone
    unfold Mkv.convert_ttml_time_to_srt Mkv.convert_ttml_time_core
    rw [if_pos h1]
    by_cases hms : Mkv.endsWithStr ("ms".data) s = true
    · rw [if_pos hms] at hnone
      rw [if_pos hms, hnone]
      rfl
    · have hms2 : ¬ (Mkv.endsWithStr ("ms".data) s = true) := hms
      rw [if_neg hms2] at hnone
      rw [if_neg hms2, hnone]
      rfl
  · intro s h1 hlen
    unfold Mkv.convert_ttml_time_to_srt Mkv.convert_ttml_time_core
    rw [if_neg (by rw [h1]; exact Bool.false_ne_true)]
    by_cases hc : Mkv.containsSub [':'] s = true
    · rw [if_pos hc]
      simp only []
      rw [if_neg (by omega)]
      rfl
    · rw [if_neg hc]
      rfl
  · intro s p0 p1 p2 r h1 hp hbad
    unfold Mkv.convert_ttml_time_to_srt Mkv.convert_ttml_time_core
    rw [if_neg (by rw [h1]; exact Bool.false_ne_true)]
    by_cases hc : Mkv.containsSub [':'] s = true
    · rw [if_pos hc]
      simp only []
      rw [hp]
      rw [if_pos (show 3 ≤ (p0 :: p1 :: p2 :: r).length by
        simp only [List.length_cons]; omega)]
      simp only [List.getElem?_cons_zero, List.getElem?_cons_succ,
        Option.getD_some]
      rcases hbad with h | h | ⟨hdot, h⟩ | ⟨hdot, hsub⟩
      · rw [h]
        rfl
      · cases h0 : Mkv.pyInt p0 with
        | none => rfl
        | some hours =>
            rw [Option.some_bind, h]
            rfl
      · cases h0 : Mkv.pyInt p0 with
        | none => rfl
        | some hours =>
            rw [Option.some_bind]
            cases h1 : Mkv.pyInt p1 with
            | none => rfl
            | some minutes =>
                rw [Option.some_bind,
                  if_neg (by rw [hdot]; exact Bool.false_ne_true), h]
                rfl
      · cases h0 : Mkv.pyInt p0 with
        | none => rfl
        | some hours =>
            rw [Option.some_bind]
            cases h1 : Mkv.pyInt p1 with
            | none => rfl
            | some minutes =>
                rw [Option.some_bind, if_pos hdot]
                rcases hsub with h | h
                · rw [h]
                  rfl
                · cases hs0 : Mkv.pyInt (((Mkv.splitChar '.' p2)[0]?).getD [])
                    with
                  | none => rfl
                  | some seconds =>
                      rw [Option.some_bind, h]
                      rfl
    · rw [if_neg hc]
      rfl

/-- C10 (witness): concrete unparsable inputs for each converter: a
two-field ASS time, an ASS time with a non-numeric minute field, a
shapeless TTML time, a TTML seconds form with an unparsable number, a
two-field TTML colon time, and TTML colon times with a non-numeric
hour field, a non-numeric undotted seconds field, a non-numeric
integral part of a dotted seconds field, and a non-numeric fractional
part of a dotted seconds field — all yield `"00:00:00,000"`. -/
theorem C10_time_parser_fallback_witness :
    Mkv.convert_ass_time_to_srt ("1:2".data) = Mkv.zeroTimestamp ∧
    Mkv.convert_ass_time_to_srt ("1:xx:3".data) = Mkv.zeroTimestamp ∧
    Mkv.convert_ttml_time_to_srt ("abc".data) = Mkv.zeroTimestamp ∧
    Mkv.convert_ttml_time_to_srt ("12..5s".data) = Mkv.zeroTimestamp ∧
    Mkv.convert_ttml_time_to_srt ("1:2".data) = Mkv.zeroTimestamp ∧
    Mkv.convert_ttml_time_to_srt ("x:2:3".data) = Mkv.zeroTimestamp ∧
    Mkv.convert_ttml_time_to_srt ("1:2:x".data) = Mkv.zeroTimestamp ∧
    Mkv.convert_ttml_time_to_srt ("1:2:x.5".data) = Mkv.zeroTimestamp ∧
    Mkv.convert_ttml_time_to_srt ("1:2:3.x".data) = Mkv.zeroTimestamp :=
  ⟨C10_time_parser_fallback.1 ("1:2".data) (by decide),
   C10_time_parser_fallback.2.1 ("1:xx:3".data) ("1".data) ("xx".data)
     ("3".data) (by decide) (Or.inr (Or.inl (by decide))),
   C10_time_parser_fallback.2.2.1 ("abc".data) (by decide) (by decide),
   C10_time_parser_fallback.2.2.2.1 ("12..5s".data) (by decide) (by decide),
   C10_time_parser_fallback.2.2.2.2.1 ("1:2".data) (by decide) (by decide),
   C10_time_parser_fallback.2.2.2.2.2 ("x:2:3".data) ("x".data) ("2".data)
     ("3".data) [] (by decide) (by decide) (Or.inl (by decide)),
   C10_time_parser_fallback.2.2.2.2.2 ("1:2:x".data) ("1".data) ("2".data)
     ("x".data) [] (by decide) (by decide)
     (Or.inr (Or.inr (Or.inl ⟨by decide, by decide⟩))),
   C10_time_parser_fallback.2.2.2.2.2 ("1:2:x.5".data) ("1".data) ("2".data)
     ("x.5".data) [] (by decide) (by decide)
     (Or.inr (Or.inr (Or.inr ⟨by decide, Or.inl (by decide)⟩))),
   C10_time_parser_fallback.2.2.2.2.2 ("1:2:3.x".data) ("1".data) ("2".data)
     ("3.x".data) [] (by decide) (by decide)
     (Or.inr (Or.inr (Or.inr ⟨by decide, Or.inr (by decide)⟩)))⟩
